import Mathlib

/-!
Shallow embedding of `networkentropy/network_energy_gradient.py`.

Graphs are finite node/edge lists with string-keyed attribute maps; Python
dicts are modelled as association lists with update-or-append insertion;
Python exceptions are modelled with `Except PyErr`.  The concrete energy
formulas (`networkentropy.network_energy`) and the networkx primitives
(`pagerank`, `girvan_newman`) are external collaborators of this module and
are taken as parameters, constrained only by the interface the module uses.
Float arithmetic is idealised as exact rational arithmetic (`ℚ`); the two
activation functions, which use `log10`, are modelled over `ℝ`.
-/

set_option maxHeartbeats 1000000

namespace NetworkEnergyGradient

abbrev Node := Nat

abbrev Edge := Nat × Nat

/-- Energies/gradients/attribute values: Python floats idealised as `ℚ`. -/
abbrev Val := ℚ

/-- The Python exceptions that can be raised by code reachable from this module. -/
inductive PyErr where
  | keyError
  | valueError
  | attributeError
  | typeError
  | powerIterationFailedConvergence
  | otherError
deriving DecidableEq, Repr

instance {ε α : Type} [DecidableEq ε] [DecidableEq α] : DecidableEq (Except ε α)
  | .ok a, .ok b =>
    if h : a = b then .isTrue (by rw [h]) else .isFalse (by intro hh; cases hh; exact h rfl)
  | .ok _, .error _ => .isFalse (by intro h; cases h)
  | .error _, .ok _ => .isFalse (by intro h; cases h)
  | .error e, .error e' =>
    if h : e = e' then .isTrue (by rw [h]) else .isFalse (by intro hh; cases hh; exact h rfl)

/-- Python dict lookup `d[k]` (as an `Option`): the entry with the given key
(keys of dicts built with `dictSet` are unique). -/
def dictGet {κ β : Type} [DecidableEq κ] : List (κ × β) → κ → Option β
  | [], _ => none
  | p :: rest, k => if p.1 = k then some p.2 else dictGet rest k

/-- Python dict assignment `d[k] = v`: update the entry for an existing key
in place (keeping its position), otherwise append a new entry at the end
(dict insertion order). -/
def dictSet {κ β : Type} [DecidableEq κ] : List (κ × β) → κ → β → List (κ × β)
  | [], k, v => [(k, v)]
  | p :: rest, k, v => if p.1 = k then (k, v) :: rest else p :: dictSet rest k v

/-- Value paired with the last occurrence of key `n` in an association list
(the value that survives when each pair is written with `dictSet` in order). -/
def lastVal {κ β : Type} [DecidableEq κ] : List (κ × β) → κ → Option β
  | [], _ => none
  | p :: rest, n =>
    match lastVal rest n with
    | some w => some w
    | none => if p.1 = n then some p.2 else none

/-- A graph: node list, edge list, and directedness flag (`nx.Graph` /
`nx.DiGraph`).  Attribute maps live in `GraphState`. -/
structure Graph where
  nodes : List Node
  edges : List Edge
  directed : Bool
deriving DecidableEq, Repr

/-- `nx.Graph.to_directed`: an undirected graph becomes a digraph in which
every undirected edge contributes both orientations (a self-loop contributes
one edge); a digraph is returned unchanged (up to copying). -/
def Graph.to_directed (g : Graph) : Graph :=
  if g.directed then g
  else
    { nodes := g.nodes
      edges := g.edges.flatMap (fun e => if e.1 = e.2 then [e] else [e, (e.2, e.1)])
      directed := true }

/-- Canonical key under which an edge's attribute dict is stored: in an
undirected graph `g[u][v]` and `g[v][u]` are the same dict, so the unordered
pair is represented by its sorted form. -/
def Graph.edgeKey (g : Graph) (e : Edge) : Edge :=
  if g.directed then e
  else if e.1 ≤ e.2 then e else (e.2, e.1)

/-- `g[u][v]` succeeds exactly when the edge is present (in either
orientation for an undirected graph). -/
def Graph.hasEdge (g : Graph) (e : Edge) : Bool :=
  if g.directed then g.edges.contains e
  else g.edges.contains e || g.edges.contains (e.2, e.1)

/-- A networkx graph object as this module observes it: structure, node and
edge attribute dicts (flattened to `(node, key) ↦ value`), the two decorator
records (instance attributes read with `getattr(…, [])`, so an absent
attribute is observationally the empty list), the optional
`supported_methods` instance attribute, and the names of bound methods
attached with `setattr`/`MethodType`. -/
structure GraphState where
  graph : Graph
  nodeAttrs : List ((Node × String) × Val)
  edgeAttrs : List ((Edge × String) × Val)
  nodes_decorators : List String
  edges_decorators : List String
  supported_methods : Option (List String)
  boundMethods : List String
deriving DecidableEq, Repr

/-- `nx.Graph.copy()`: copies structure and node/edge attribute dicts; custom
instance attributes (decorator records, `supported_methods`, bound methods)
are not carried to the fresh object. -/
def copyState (gs : GraphState) : GraphState :=
  { graph := gs.graph
    nodeAttrs := gs.nodeAttrs
    edgeAttrs := gs.edgeAttrs
    nodes_decorators := []
    edges_decorators := []
    supported_methods := none
    boundMethods := [] }

/-- `clear_all_nodes_attrs` followed by `clear_all_edges_attrs`: every node
and edge data dict is cleared and both decorator-record attributes are
deleted (an absent record reads as `[]`).  Other instance attributes are
untouched. -/
def clearState (gs : GraphState) : GraphState :=
  { gs with
    nodeAttrs := []
    edgeAttrs := []
    nodes_decorators := []
    edges_decorators := [] }

/-- `nx.Graph.to_directed()` at the object level: fresh digraph, node and
edge data deep-copied (each undirected edge's dict appears under both
orientations), custom instance attributes not carried over. -/
def to_directed_state (gs : GraphState) : GraphState :=
  { graph := gs.graph.to_directed
    nodeAttrs := gs.nodeAttrs
    edgeAttrs :=
      gs.edgeAttrs.flatMap (fun p =>
        if p.1.1.1 = p.1.1.2 then [p]
        else [p, (((p.1.1.2, p.1.1.1), p.1.2), p.2)])
    nodes_decorators := []
    edges_decorators := []
    supported_methods := none
    boundMethods := [] }

/-- An energy method `(graph, radius) -> Dict[node, float]` from
`networkentropy.network_energy` (external collaborator). -/
abbrev EnergyFn := Graph → Nat → List (Node × Val)

/-- The four entries of `_ENERGY_METHODS`; the concrete formulas live in the
external `network_energy` module, so they are fields of a parameter. -/
structure EnergyRegistry where
  randic : EnergyFn
  laplacian : EnergyFn
  directed_laplacian : EnergyFn
  graph_energy : EnergyFn

/-- `_get_energy_method`: registry lookup, `ValueError` for unknown names. -/
def _get_energy_method (R : EnergyRegistry) (method : String) : Except PyErr EnergyFn :=
  if method = "randic" then .ok R.randic
  else if method = "laplacian" then .ok R.laplacian
  else if method = "directed_laplacian" then .ok R.directed_laplacian
  else if method = "graph" then .ok R.graph_energy
  else .error .valueError

def _get_energy_method_name (method : String) : String := method ++ "_energy"

def _get_gradient_method_name (method : String) : String := method ++ "_gradient"

def _compute_gradient (energy1 energy2 : Val) : Val := energy2 - energy1

/-- The `for edge in g.edges` loop of `get_energy_gradients`: look up both
endpoint energies (`KeyError` when one is missing from the energy dict) and
store `energy2 - energy1` under the edge. -/
def _gradients_loop (energies : List (Node × Val)) :
    List Edge → List (Edge × Val) → Except PyErr (List (Edge × Val))
  | [], result => .ok result
  | edge :: rest, result =>
    match dictGet energies edge.1 with
    | none => .error .keyError
    | some e1 =>
      match dictGet energies edge.2 with
      | none => .error .keyError
      | some e2 => _gradients_loop energies rest (dictSet result edge (_compute_gradient e1 e2))

/-- `get_energy_gradients(g, method, complete, radius)`: convert to directed
form when `complete`, resolve the energy method, compute all node energies
once, then fill the result dict edge by edge. -/
def get_energy_gradients (R : EnergyRegistry) (g : Graph) (method : String)
    (complete : Bool) (radius : Nat) : Except PyErr (List (Edge × Val)) := do
  let g' := if complete then g.to_directed else g
  let get_energies ← _get_energy_method R method
  let energies := get_energies g' radius
  _gradients_loop energies g'.edges []

/-! ### Graph augmentation engine (`decorate_graph` and friends) -/

/-- A node decorator `fn(graph) -> Dict[node, float]`.  The result carries:
the number of underlying energy-method invocations the call performs (for
the call-counting property), the returned mapping, and the state of the
graph object after the call (a decorator may mutate the graph it is given;
the decorators built by this module are pure except for
`get_energy_gradient_centrality` applied to an already-directed graph). -/
abbrev NodeDecorator := GraphState → Except PyErr (Nat × List (Node × Val) × GraphState)

/-- An edge decorator `fn(graph) -> Dict[edge, float]`; components as in
`NodeDecorator`. -/
abbrev EdgeDecorator := GraphState → Except PyErr (Nat × List (Edge × Val) × GraphState)

/-- `has_nodes_decorated`: membership in the node decorator record
(`getattr` with default `[]`). -/
def has_nodes_decorated (gs : GraphState) (decorator_name : String) : Bool :=
  gs.nodes_decorators.contains decorator_name

/-- `has_edges_decorated`: membership in the edge decorator record. -/
def has_edges_decorated (gs : GraphState) (decorator_name : String) : Bool :=
  gs.edges_decorators.contains decorator_name

/-- `add_nodes_decorator`: append the name to the node decorator record. -/
def add_nodes_decorator (gs : GraphState) (decorator_name : String) : GraphState :=
  { gs with nodes_decorators := gs.nodes_decorators ++ [decorator_name] }

/-- `add_edges_decorator`: append the name to the edge decorator record. -/
def add_edges_decorator (gs : GraphState) (decorator_name : String) : GraphState :=
  { gs with edges_decorators := gs.edges_decorators ++ [decorator_name] }

/-- `graph.nodes[node][name] = value` (`KeyError` when the node is absent). -/
def writeNodeAttrs (name : String) :
    List (Node × Val) → GraphState → Except PyErr GraphState
  | [], gs => .ok gs
  | (n, v) :: rest, gs =>
    if n ∈ gs.graph.nodes then
      writeNodeAttrs name rest { gs with nodeAttrs := dictSet gs.nodeAttrs (n, name) v }
    else .error .keyError

/-- `graph[edge[0]][edge[1]][name] = value` (`KeyError` when the edge is
absent; in an undirected graph both orientations address the same dict). -/
def writeEdgeAttrs (name : String) :
    List (Edge × Val) → GraphState → Except PyErr GraphState
  | [], gs => .ok gs
  | (e, v) :: rest, gs =>
    if gs.graph.hasEdge e then
      writeEdgeAttrs name rest
        { gs with edgeAttrs := dictSet gs.edgeAttrs (gs.graph.edgeKey e, name) v }
    else .error .keyError

/-- The `for name, function in nodes_decorators.items()` loop of
`decorate_graph`: skip names already recorded, otherwise invoke the
decorator; a non-empty result is written to the node attribute maps and the
name is recorded, an empty result (`if result:` false) is discarded without
recording.  The accumulated `Nat` counts energy-method invocations. -/
def applyNodeDecorators :
    List (String × NodeDecorator) → GraphState → Except PyErr (Nat × GraphState)
  | [], gs => .ok (0, gs)
  | (name, fn) :: rest, gs =>
    if has_nodes_decorated gs name then applyNodeDecorators rest gs
    else
      match fn gs with
      | .error e => .error e
      | .ok (c, result, gsM) =>
        if result = [] then
          match applyNodeDecorators rest gsM with
          | .error e => .error e
          | .ok (c', gs') => .ok (c + c', gs')
        else
          match writeNodeAttrs name result gsM with
          | .error e => .error e
          | .ok gsW =>
            match applyNodeDecorators rest (add_nodes_decorator gsW name) with
            | .error e => .error e
            | .ok (c', gs') => .ok (c + c', gs')

/-- The edge-decorator loop of `decorate_graph` (symmetric to the node
loop). -/
def applyEdgeDecorators :
    List (String × EdgeDecorator) → GraphState → Except PyErr (Nat × GraphState)
  | [], gs => .ok (0, gs)
  | (name, fn) :: rest, gs =>
    if has_edges_decorated gs name then applyEdgeDecorators rest gs
    else
      match fn gs with
      | .error e => .error e
      | .ok (c, result, gsM) =>
        if result = [] then
          match applyEdgeDecorators rest gsM with
          | .error e => .error e
          | .ok (c', gs') => .ok (c + c', gs')
        else
          match writeEdgeAttrs name result gsM with
          | .error e => .error e
          | .ok gsW =>
            match applyEdgeDecorators rest (add_edges_decorator gsW name) with
            | .error e => .error e
            | .ok (c', gs') => .ok (c + c', gs')

/-- `setattr(graph, name, MethodType(method, graph))`: afterwards the graph
carries a bound method under `name`. -/
def bindMethod (gs : GraphState) (name : String) : GraphState :=
  if name ∈ gs.boundMethods then gs
  else { gs with boundMethods := gs.boundMethods ++ [name] }

/-- `decorate_graph(graph, nodes_decorators, edges_decorators, methods,
copy, clear)` acting on the graph it ends up operating on (the copy when
`copy` is true).  Returns the total energy-method invocation count and the
final state of the operated graph. -/
def decorate_graph (gs : GraphState) (nodes_decorators : List (String × NodeDecorator))
    (edges_decorators : List (String × EdgeDecorator)) (methods : List String)
    (copy clear : Bool) : Except PyErr (Nat × GraphState) := do
  let gs := if copy then copyState gs else gs
  let gs := if clear then clearState gs else gs
  let (c1, gs) ← applyNodeDecorators nodes_decorators gs
  let (c2, gs) ← applyEdgeDecorators edges_decorators gs
  let gs := methods.foldl bindMethod gs
  .ok (c1 + c2, gs)

/-- `decorate_graph` as the caller observes it: the second component is the
returned (operated) graph, the third is the caller's original graph after
the call — rebinding `graph = graph.copy()` directs all later mutation at
the copy, so with `copy` the original keeps its input state, and without
`copy` both names alias the mutated graph. -/
def decorate_graph_caller (gs : GraphState)
    (nodes_decorators : List (String × NodeDecorator))
    (edges_decorators : List (String × EdgeDecorator)) (methods : List String)
    (copy clear : Bool) : Except PyErr (Nat × GraphState × GraphState) := do
  let (c, gs') ← decorate_graph gs nodes_decorators edges_decorators methods copy clear
  .ok (c, gs', if copy then gs else gs')

/-! ### Bound query operations and the energy/gradient facade -/

/-- `_get_gradient(graph, node1, node2, method)`: reading
`graph.supported_methods` raises `AttributeError` when the attribute was
never set; a set attribute not containing the method raises `ValueError`;
then both endpoint energies are read (`KeyError` when absent) and their
difference returned. -/
def _get_gradient (gs : GraphState) (node1 node2 : Node) (method : String) :
    Except PyErr Val :=
  match gs.supported_methods with
  | none => .error .attributeError
  | some sm =>
    if ¬ (method ∈ sm) then .error .valueError
    else
      match dictGet gs.nodeAttrs (node1, _get_energy_method_name method) with
      | none => .error .keyError
      | some node1_energy =>
        match dictGet gs.nodeAttrs (node2, _get_energy_method_name method) with
        | none => .error .keyError
        | some node2_energy => .ok (_compute_gradient node1_energy node2_energy)

/-- `get_graph_with_energy_data(g, methods, radius, copy, clear)`: one node
decorator (the energy method, `radius` bound via a default argument) and one
edge decorator (`get_energy_gradients` with the method name bound via a
default argument, `complete` left at `False`) per method, then
`decorate_graph` with the two bound query operations.  Each decorator
invokes the underlying energy method exactly once (directly, resp. inside
`get_energy_gradients`), recorded in its count component; neither mutates
its graph. -/
def get_graph_with_energy_data (R : EnergyRegistry) (gs : GraphState)
    (methods : List String) (radius : Nat) (copy clear : Bool) :
    Except PyErr (Nat × GraphState) := do
  let energy_methods ← methods.mapM (fun m => do
    let f ← _get_energy_method R m
    pure (m, f))
  let nodes_decorators : List (String × NodeDecorator) :=
    energy_methods.map (fun p =>
      (_get_energy_method_name p.1,
       fun gsx => .ok (1, p.2 gsx.graph radius, gsx)))
  let edges_decorators : List (String × EdgeDecorator) :=
    energy_methods.map (fun p =>
      (_get_gradient_method_name p.1,
       fun gsx => do
         let grads ← get_energy_gradients R gsx.graph p.1 false radius
         pure (1, grads, gsx)))
  decorate_graph gs nodes_decorators edges_decorators
    ["get_gradient", "get_path_energy"] copy clear

/-! ### Activations (over `ℝ`, since `elu` uses `np.log10`) -/

noncomputable def log10 (x : ℝ) : ℝ := Real.log x / Real.log 10

/-- `ACTIVATIONS['relu']`: `x if x > 0 else 0`. -/
noncomputable def relu (x : ℝ) : ℝ := if x > 0 then x else 0

/-- `ACTIVATIONS['elu']`: `x if x >= 0 else np.log10(np.abs(x) + 1)`. -/
noncomputable def elu (x : ℝ) : ℝ := if x ≥ 0 then x else log10 (|x| + 1)

/-- The `ACTIVATIONS` registry. -/
noncomputable def ACTIVATIONS : List (String × (ℝ → ℝ)) :=
  [("relu", relu), ("elu", elu)]

/-! ### Gradient centrality engine -/

/-- `nx.pagerank(g_with_data, weight='gradient', …)` with all rank
parameters fixed: an external primitive, taken as a function of the state it
is handed; it raises `powerIterationFailedConvergence` when the iteration
cap is hit. -/
abbrev PageRankFn := GraphState → Except PyErr (List (Node × Val))

/-- The local `gradient_decorator` of `get_energy_gradient_centrality`:
activation applied pointwise to the non-complete gradients.  `act` is the
function `ACTIVATIONS[activation]` resolves to (the registry's real-valued
forms are modelled separately; here the resolved activation is a parameter
over `ℚ`).  One energy-method invocation, no mutation. -/
def _gradient_decorator (R : EnergyRegistry) (method : String) (act : Val → Val)
    (radius : Nat) : EdgeDecorator := fun gs => do
  let grads ← get_energy_gradients R gs.graph method false radius
  pure (1, grads.map (fun p => (p.1, act p.2)), gs)

/-- The `g_with_data` construction inside `get_energy_gradient_centrality`:
force the graph to directed form (`to_directed` yields a fresh copy when the
input is undirected), then `decorate_graph` with the single `'gradient'`
edge decorator and the given `copy`/`clear` flags. -/
def _g_with_data (R : EnergyRegistry) (gs : GraphState) (method : String)
    (act : Val → Val) (radius : Nat) (copy clear : Bool) :
    Except PyErr (Nat × GraphState) :=
  let g := if gs.graph.directed then gs else to_directed_state gs
  decorate_graph g [] [("gradient", _gradient_decorator R method act radius)] [] copy clear

/-- `get_energy_gradient_centrality(g, method, activation, …, copy, clear)`:
build `g_with_data`, run rank propagation on it, catch exactly
`PowerIterationFailedConvergence` (warn and return `None`); any other
exception propagates.  The second component is the caller's graph after the
call: it is mutated (to the decorated state) exactly when the input was
already directed — so `g = g.to_directed()` did not rebind to a fresh
copy — and `copy` is false. -/
def get_energy_gradient_centrality (pagerank : PageRankFn) (R : EnergyRegistry)
    (gs : GraphState) (method : String) (act : Val → Val) (radius : Nat)
    (copy clear : Bool) : Except PyErr (Option (List (Node × Val)) × GraphState) := do
  let (_, g_with_data) ← _g_with_data R gs method act radius copy clear
  let callerAfter := if gs.graph.directed && !copy then g_with_data else gs
  match pagerank g_with_data with
  | .ok result => .ok (some result, callerAfter)
  | .error .powerIterationFailedConvergence => .ok (none, callerAfter)
  | .error e => .error e

def _get_centrality_name (method : String) : String := method ++ "_gradient_centrality"

/-- The decorator built in the loop of
`get_graph_with_energy_gradient_centrality`.  Every lambda reads the loop
variable `method` from the enclosing scope (no default-argument binding, in
contrast with `get_graph_with_energy_data`); the lambdas are invoked only
inside `decorate_graph`, after the loop has finished, so each reads the
final value of the variable — the last element of `methods` (`none` never
arises, since decorators exist only when `methods` is non-empty). `copy` is
passed as `False` and `clear` is left at its default `True`.  A `None`
result and an empty dict are both falsy for the `if result:` test, so they
are merged here.  The inner `decorate_graph` always finds a cleared graph,
hence performs exactly one energy-method invocation. -/
def _centrality_decorator (pagerank : PageRankFn) (R : EnergyRegistry)
    (lastMethod : Option String) (act : Val → Val) (radius : Nat) : NodeDecorator :=
  fun gs =>
    match lastMethod with
    | none => .error .otherError
    | some lm => do
      let (res, after) ← get_energy_gradient_centrality pagerank R gs lm act radius false true
      pure (1, res.getD [], after)

/-- `get_graph_with_energy_gradient_centrality(g, methods, activation, …)`:
one node decorator per method name, all of them closing over the shared loop
variable (its post-loop value is `methods.getLast?`), then
`decorate_graph`. -/
def get_graph_with_energy_gradient_centrality (pagerank : PageRankFn)
    (R : EnergyRegistry) (gs : GraphState) (methods : List String)
    (act : Val → Val) (radius : Nat) (copy clear : Bool) :
    Except PyErr (Nat × GraphState) :=
  let lastMethod := methods.getLast?
  let nodes_decorators : List (String × NodeDecorator) :=
    methods.map (fun m =>
      (_get_centrality_name m, _centrality_decorator pagerank R lastMethod act radius))
  decorate_graph gs nodes_decorators [] [] copy clear

/-! ### Community split driver -/

/-- The Python values that appear in the call
`max(gradients.items(), operator.itemgetter(1))`. -/
inductive PyVal where
  | dictItems : List (Edge × Val) → PyVal
  | itemgetter : Nat → PyVal
deriving DecidableEq, Repr

/-- Python `b > a` between such values: `dict_items` views compare to each
other as sets (proper superset); comparing a `dict_items` view with an
`operator.itemgetter` object raises `TypeError`. -/
def pyGT : PyVal → PyVal → Except PyErr Bool
  | .dictItems b, .dictItems a =>
    .ok (a.all (fun p => p ∈ b) && !b.all (fun p => p ∈ a))
  | _, _ => .error .typeError

/-- CPython `max(a, b)` with two positional arguments: return `b` if
`b > a`, else `a`. -/
def pyMax2 (a b : PyVal) : Except PyErr PyVal := do
  if (← pyGT b a) then pure b else pure a

/-- Python `v[0]` on such a value: neither `dict_items` nor `itemgetter`
supports subscripting, so `TypeError`. -/
def pySubscript0 : PyVal → Except PyErr Edge
  | .dictItems _ => .error .typeError
  | .itemgetter _ => .error .typeError

/-- The `most_central_edge` selector inside `girvan_newman_energy_gradient`:
`max(gradients.items(), operator.itemgetter(1))[0]` — `operator.itemgetter(1)`
is passed as a second positional argument, not as `key=`. -/
def most_central_edge (R : EnergyRegistry) (method : String) (g : Graph) :
    Except PyErr Edge := do
  let gradients ← get_energy_gradients R g method false 1
  let m ← pyMax2 (.dictItems gradients) (.itemgetter 1)
  pySubscript0 m

/-! ### Dictionary lemmas -/

theorem dictGet_dictSet_self {κ β : Type} [DecidableEq κ] (d : List (κ × β)) (k : κ) (v : β) :
    dictGet (dictSet d k v) k = some v := by
  induction d with
  | nil => simp [dictSet, dictGet]
  | cons p rest ih =>
    by_cases hp : p.1 = k
    · simp [dictSet, dictGet, hp]
    · simp [dictSet, dictGet, hp, ih]

theorem dictGet_dictSet_ne {κ β : Type} [DecidableEq κ] (d : List (κ × β)) (k k' : κ)
    (v : β) (h : k' ≠ k) : dictGet (dictSet d k v) k' = dictGet d k' := by
  induction d with
  | nil => simp [dictSet, dictGet, Ne.symm h]
  | cons p rest ih =>
    by_cases hp : p.1 = k
    · have hp' : ¬ p.1 = k' := fun hh => h (hh ▸ hp)
      simp [dictSet, dictGet, hp, hp', Ne.symm h]
    · by_cases hp' : p.1 = k'
      · simp [dictSet, dictGet, hp, hp', h]
      · simp [dictSet, dictGet, hp, hp', ih]

theorem dictSet_map_fst_of_not_mem {κ β : Type} [DecidableEq κ] (d : List (κ × β))
    (k : κ) (v : β) (h : k ∉ d.map Prod.fst) :
    (dictSet d k v).map Prod.fst = d.map Prod.fst ++ [k] := by
  induction d with
  | nil => simp [dictSet]
  | cons p rest ih =>
    simp only [List.map_cons, List.mem_cons] at h
    push_neg at h
    have hpk : ¬ p.1 = k := fun hh => h.1 hh.symm
    simp [dictSet, hpk, ih h.2]

theorem dictSet_map_fst_of_mem {κ β : Type} [DecidableEq κ] (d : List (κ × β))
    (k : κ) (v : β) (h : k ∈ d.map Prod.fst) :
    (dictSet d k v).map Prod.fst = d.map Prod.fst := by
  induction d with
  | nil => simp at h
  | cons p rest ih =>
    by_cases hp : p.1 = k
    · simp [dictSet, hp]
    · simp only [List.map_cons, List.mem_cons] at h
      rcases h with h | h
      · exact absurd h.symm hp
      · simp [dictSet, hp, ih h]

/-! ### Lemmas about the gradient loop -/

/-- Value characterisation: every value reachable in the result dict of the
gradient loop is the energy difference of its edge's endpoints. -/
theorem gradients_loop_values (energies : List (Node × Val)) :
    ∀ (edges : List Edge) (acc res : List (Edge × Val)),
      _gradients_loop energies edges acc = .ok res →
      (∀ u v a, dictGet acc (u, v) = some a →
        ∃ e1 e2, dictGet energies u = some e1 ∧ dictGet energies v = some e2 ∧
          a = _compute_gradient e1 e2) →
      ∀ u v a, dictGet res (u, v) = some a →
        ∃ e1 e2, dictGet energies u = some e1 ∧ dictGet energies v = some e2 ∧
          a = _compute_gradient e1 e2 := by
  intro edges
  induction edges with
  | nil =>
    intro acc res hres hacc
    simp only [_gradients_loop] at hres
    cases hres
    exact hacc
  | cons e rest ih =>
    intro acc res hres hacc
    simp only [_gradients_loop] at hres
    cases h1 : dictGet energies e.1 with
    | none => rw [h1] at hres; cases hres
    | some e1 =>
      rw [h1] at hres
      cases h2 : dictGet energies e.2 with
      | none => rw [h2] at hres; cases hres
      | some e2 =>
        rw [h2] at hres
        refine ih _ _ hres ?_
        intro u v a hget
        by_cases he : (u, v) = e
        · subst he
          rw [dictGet_dictSet_self] at hget
          cases hget
          exact ⟨e1, e2, h1, h2, rfl⟩
        · rw [dictGet_dictSet_ne _ _ _ _ he] at hget
          exact hacc u v a hget

/-- Key-set characterisation: with pairwise-distinct edges none of which is
already a key of the accumulator, the gradient loop's result keys are
exactly the accumulator keys followed by the edges, in order. -/
theorem gradients_loop_keys (energies : List (Node × Val)) :
    ∀ (edges : List Edge) (acc res : List (Edge × Val)),
      _gradients_loop energies edges acc = .ok res →
      (∀ e ∈ edges, e ∉ acc.map Prod.fst) → edges.Nodup →
      res.map Prod.fst = acc.map Prod.fst ++ edges := by
  intro edges
  induction edges with
  | nil =>
    intro acc res hres _ _
    simp only [_gradients_loop] at hres
    cases hres
    simp
  | cons e rest ih =>
    intro acc res hres hfresh hnd
    simp only [_gradients_loop] at hres
    cases h1 : dictGet energies e.1 with
    | none => rw [h1] at hres; cases hres
    | some e1 =>
      rw [h1] at hres
      cases h2 : dictGet energies e.2 with
      | none => rw [h2] at hres; cases hres
      | some e2 =>
        rw [h2] at hres
        have hkeys : (dictSet acc e (_compute_gradient e1 e2)).map Prod.fst
            = acc.map Prod.fst ++ [e] :=
          dictSet_map_fst_of_not_mem _ _ _ (hfresh e (List.mem_cons_self e rest))
        have hfresh' : ∀ e' ∈ rest, e' ∉ (dictSet acc e (_compute_gradient e1 e2)).map Prod.fst := by
          intro e' he' hmem
          rw [hkeys] at hmem
          rcases List.mem_append.mp hmem with h | h
          · exact hfresh e' (List.mem_cons_of_mem e he') h
          · rcases List.mem_singleton.mp h with rfl
            exact (List.nodup_cons.mp hnd).1 he'
        have := ih _ _ hres hfresh' (List.nodup_cons.mp hnd).2
        rw [this, hkeys, List.append_assoc]
        rfl

/-- Membership: every processed edge (and every accumulator key) is a key of
the gradient loop's result. -/
theorem gradients_loop_mem (energies : List (Node × Val)) :
    ∀ (edges : List Edge) (acc res : List (Edge × Val)),
      _gradients_loop energies edges acc = .ok res →
      ∀ e, e ∈ edges ∨ e ∈ acc.map Prod.fst → e ∈ res.map Prod.fst := by
  intro edges
  induction edges with
  | nil =>
    intro acc res hres e he
    simp only [_gradients_loop] at hres
    cases hres
    rcases he with h | h
    · cases h
    · exact h
  | cons e0 rest ih =>
    intro acc res hres e he
    simp only [_gradients_loop] at hres
    cases h1 : dictGet energies e0.1 with
    | none => rw [h1] at hres; cases hres
    | some e1 =>
      rw [h1] at hres
      cases h2 : dictGet energies e0.2 with
      | none => rw [h2] at hres; cases hres
      | some e2 =>
        rw [h2] at hres
        have hmemset : ∀ e', e' ∈ acc.map Prod.fst ∨ e' = e0 →
            e' ∈ (dictSet acc e0 (_compute_gradient e1 e2)).map Prod.fst := by
          intro e' he'
          by_cases hm : e0 ∈ acc.map Prod.fst
          · rw [dictSet_map_fst_of_mem _ _ _ hm]
            rcases he' with h | rfl
            · exact h
            · exact hm
          · rw [dictSet_map_fst_of_not_mem _ _ _ hm]
            rcases he' with h | rfl
            · exact List.mem_append.mpr (Or.inl h)
            · exact List.mem_append.mpr (Or.inr (List.mem_singleton.mpr rfl))
        rcases he with h | h
        · rcases List.mem_cons.mp h with rfl | hrest
          · exact ih _ _ hres e (Or.inr (hmemset e (Or.inr rfl)))
          · exact ih _ _ hres e (Or.inl hrest)
        · exact ih _ _ hres e (Or.inr (hmemset e (Or.inl h)))

/-! ### Concrete scenario material (stub energy methods and small graphs) -/

/-- A stub energy method assigning node `n` the energy `n + 1`. -/
def stubEnergy : EnergyFn := fun g _ => g.nodes.map (fun n => (n, (n : ℚ) + 1))

/-- A registry whose `directed_laplacian` entry realises the energies
`{0: 1.0, 1: 2.0, 2: 1.5, 3: 0.5}` of end-to-end scenario A. -/
def scenarioRegistry : EnergyRegistry :=
  { randic := stubEnergy
    laplacian := stubEnergy
    directed_laplacian := fun _ _ => [(0, 1), (1, 2), (2, (3 : ℚ)/2), (3, (1 : ℚ)/2)]
    graph_energy := stubEnergy }

/-- The 4-node cycle of scenario A, with edges `(0,1),(1,2),(2,3),(3,0)`. -/
def cycleGraph : Graph :=
  { nodes := [0, 1, 2, 3], edges := [(0, 1), (1, 2), (2, 3), (3, 0)], directed := false }

/-- The gradients scenario A expects:
`{(0,1): 1.0, (1,2): -0.5, (2,3): -1.0, (3,0): 0.5}`. -/
def cycleGradients : List (Edge × Val) :=
  [((0, 1), 1), ((1, 2), -(1 : ℚ)/2), ((2, 3), -1), ((3, 0), (1 : ℚ)/2)]

/-- A single undirected edge between nodes 0 and 1. -/
def pathGraph : Graph := { nodes := [0, 1], edges := [(0, 1)], directed := false }

/-- A fresh graph object: no attributes, no decoration records, nothing bound. -/
def freshGS (g : Graph) : GraphState :=
  { graph := g, nodeAttrs := [], edgeAttrs := [], nodes_decorators := [],
    edges_decorators := [], supported_methods := none, boundMethods := [] }

/-! ### C1 — gradients cover exactly the edges with energy differences -/

/-- C1: for every graph, registry method and radius, a successful
`get_energy_gradients` returns a dict whose keys are exactly the edges of
the (directed-converted when `complete`) graph, each exactly once, and whose
value at `(u, v)` is `energies[v] - energies[u]` for the energy dict
produced by the resolved method. -/
theorem get_energy_gradients_keys_and_values (R : EnergyRegistry) (method : String)
    (f : EnergyFn) (g : Graph) (complete : Bool) (radius : Nat)
    (result : List (Edge × Val))
    (hm : _get_energy_method R method = .ok f)
    (hres : get_energy_gradients R g method complete radius = .ok result)
    (hnd : (if complete then g.to_directed else g).edges.Nodup) :
    result.map Prod.fst = (if complete then g.to_directed else g).edges
    ∧ ∀ u v a, dictGet result (u, v) = some a →
        ∃ e1 e2,
          dictGet (f (if complete then g.to_directed else g) radius) u = some e1 ∧
          dictGet (f (if complete then g.to_directed else g) radius) v = some e2 ∧
          a = _compute_gradient e1 e2 := by
  unfold get_energy_gradients at hres
  rw [hm] at hres
  simp only [Except.bind, bind] at hres
  constructor
  · have := gradients_loop_keys _ _ [] result hres (by simp) hnd
    simpa using this
  · exact gradients_loop_values _ _ [] result hres
      (by intro u v a h; simp [dictGet] at h)

/-- Scenario A of C1, obtained from the main theorem: on the 4-node cycle
with directed-Laplacian energies `{0:1, 1:2, 2:1.5, 3:0.5}`, the gradient
dict is `{(0,1):1, (1,2):-0.5, (2,3):-1, (3,0):0.5}` and its keys are the
cycle's edges. -/
theorem get_energy_gradients_keys_and_values_witness :
    get_energy_gradients scenarioRegistry cycleGraph "directed_laplacian" false 1
      = .ok cycleGradients
    ∧ cycleGradients.map Prod.fst = cycleGraph.edges := by
  have hres : get_energy_gradients scenarioRegistry cycleGraph "directed_laplacian" false 1
      = .ok cycleGradients := by
    norm_num +decide [get_energy_gradients, _get_energy_method, Except.bind, bind,
      _gradients_loop, dictGet, dictSet, scenarioRegistry, cycleGraph, cycleGradients,
      _compute_gradient]
  refine ⟨hres, ?_⟩
  exact (get_energy_gradients_keys_and_values scenarioRegistry "directed_laplacian"
    scenarioRegistry.directed_laplacian cycleGraph false 1 cycleGradients
    rfl hres (by decide)).1

/-! ### C2 — complete mode: directed conversion and antisymmetry -/

/-- C2: with `complete = true` the graph is first converted to directed
form, so every undirected non-loop edge contributes both orientations to
the result, and the gradient values are antisymmetric:
`gradient(u,v) = -gradient(v,u)`. -/
theorem gradients_complete_antisymmetry (R : EnergyRegistry) (method : String)
    (f : EnergyFn) (g : Graph) (radius : Nat) (result : List (Edge × Val))
    (hm : _get_energy_method R method = .ok f)
    (hres : get_energy_gradients R g method true radius = .ok result) :
    (g.directed = false → ∀ e ∈ g.edges, e.1 ≠ e.2 →
      (e.1, e.2) ∈ result.map Prod.fst ∧ (e.2, e.1) ∈ result.map Prod.fst)
    ∧ ∀ u v a b, dictGet result (u, v) = some a → dictGet result (v, u) = some b →
        a = -b := by
  unfold get_energy_gradients at hres
  rw [hm] at hres
  simp only [Except.bind, bind, if_true] at hres
  constructor
  · intro hdir e he hne
    have hmem : (e.1, e.2) ∈ g.to_directed.edges ∧ (e.2, e.1) ∈ g.to_directed.edges := by
      unfold Graph.to_directed
      rw [hdir]
      simp only [Bool.false_eq_true, if_false]
      constructor
      · exact List.mem_flatMap.mpr ⟨e, he, by simp [hne]⟩
      · exact List.mem_flatMap.mpr ⟨e, he, by simp [hne]⟩
    exact ⟨gradients_loop_mem _ _ _ _ hres _ (Or.inl hmem.1),
           gradients_loop_mem _ _ _ _ hres _ (Or.inl hmem.2)⟩
  · intro u v a b ha hb
    have hval := gradients_loop_values _ _ [] result hres
      (by intro u v a h; simp [dictGet] at h)
    rcases hval u v a ha with ⟨e1, e2, h1, h2, hva⟩
    rcases hval v u b hb with ⟨e1', e2', h1', h2', hvb⟩
    rw [h2] at h1'
    rw [h1] at h2'
    cases h1'
    cases h2'
    rw [hva, hvb]
    unfold _compute_gradient
    ring

/-- Concrete instance of C2: on the single undirected edge `(0, 1)` with
stub energies, complete-mode gradients contain both orientations and the
two stored values are negatives of each other. -/
theorem gradients_complete_antisymmetry_witness :
    get_energy_gradients scenarioRegistry pathGraph "randic" true 1
      = .ok [((0, 1), 1), ((1, 0), -1)]
    ∧ (1 : Val) = -(-1 : Val) := by
  have hres : get_energy_gradients scenarioRegistry pathGraph "randic" true 1
      = .ok [((0, 1), 1), ((1, 0), -1)] := by
    norm_num +decide [get_energy_gradients, _get_energy_method, Except.bind, bind,
      _gradients_loop, dictGet, dictSet, scenarioRegistry, pathGraph, Graph.to_directed,
      _compute_gradient, stubEnergy]
  refine ⟨hres, ?_⟩
  exact (gradients_complete_antisymmetry scenarioRegistry "randic"
    scenarioRegistry.randic pathGraph 1 [((0, 1), 1), ((1, 0), -1)]
    rfl hres).2 0 1 1 (-1) (by norm_num [dictGet]) (by norm_num [dictGet])

/-! ### C8 — copy semantics: the original graph is untouched -/

/-- C8: with `copy = true`, `decorate_graph` operates on and returns a
duplicate (whose attribute maps start as copies of the input's), the
caller's original graph comes back in its input state, and a simultaneous
`clear = true` applies only to the duplicate, since copying precedes
clearing. -/
theorem decorate_graph_copy_leaves_original (gs : GraphState)
    (nd : List (String × NodeDecorator)) (ed : List (String × EdgeDecorator))
    (ms : List String) (clear : Bool) :
    decorate_graph_caller gs nd ed ms true clear
      = (decorate_graph (copyState gs) nd ed ms false clear).map (fun p => (p.1, p.2, gs))
    ∧ (copyState gs).nodeAttrs = gs.nodeAttrs ∧ (copyState gs).edgeAttrs = gs.edgeAttrs := by
  refine ⟨?_, rfl, rfl⟩
  have heq : decorate_graph gs nd ed ms true clear
      = decorate_graph (copyState gs) nd ed ms false clear := rfl
  unfold decorate_graph_caller
  rw [heq]
  cases h : decorate_graph (copyState gs) nd ed ms false clear with
  | error e => simp [h, Except.bind, bind, Except.map]
  | ok p => simp [h, Except.bind, bind, Except.map]

/-! ### Component lemmas for the augmentation engine -/

theorem writeNodeAttrs_components (name : String) :
    ∀ (l : List (Node × Val)) (gs gs' : GraphState),
      writeNodeAttrs name l gs = .ok gs' →
      gs'.graph = gs.graph ∧ gs'.edgeAttrs = gs.edgeAttrs ∧
      gs'.nodes_decorators = gs.nodes_decorators ∧
      gs'.edges_decorators = gs.edges_decorators ∧
      gs'.supported_methods = gs.supported_methods ∧
      gs'.boundMethods = gs.boundMethods := by
  intro l
  induction l with
  | nil =>
    intro gs gs' h
    unfold writeNodeAttrs at h
    cases h
    exact ⟨rfl, rfl, rfl, rfl, rfl, rfl⟩
  | cons p rest ih =>
    intro gs gs' h
    unfold writeNodeAttrs at h
    split at h
    · simpa using ih _ _ h
    · cases h

theorem writeEdgeAttrs_components (name : String) :
    ∀ (l : List (Edge × Val)) (gs gs' : GraphState),
      writeEdgeAttrs name l gs = .ok gs' →
      gs'.graph = gs.graph ∧ gs'.nodeAttrs = gs.nodeAttrs ∧
      gs'.nodes_decorators = gs.nodes_decorators ∧
      gs'.edges_decorators = gs.edges_decorators ∧
      gs'.supported_methods = gs.supported_methods ∧
      gs'.boundMethods = gs.boundMethods := by
  intro l
  induction l with
  | nil =>
    intro gs gs' h
    unfold writeEdgeAttrs at h
    cases h
    exact ⟨rfl, rfl, rfl, rfl, rfl, rfl⟩
  | cons p rest ih =>
    intro gs gs' h
    unfold writeEdgeAttrs at h
    split at h
    · simpa using ih _ _ h
    · cases h

/-- Pure node decorators: the decorator returns the graph it was given. -/
def PureNodeDecs (decs : List (String × NodeDecorator)) : Prop :=
  ∀ p ∈ decs, ∀ gs k l gsM, p.2 gs = .ok (k, l, gsM) → gsM = gs

/-- Pure edge decorators. -/
def PureEdgeDecs (decs : List (String × EdgeDecorator)) : Prop :=
  ∀ p ∈ decs, ∀ gs k l gsM, p.2 gs = .ok (k, l, gsM) → gsM = gs

/-- With pure decorators, the node-decorator loop changes only node
attributes and the node decoration record, which it only extends. -/
theorem applyNodeDecorators_components :
    ∀ (decs : List (String × NodeDecorator)) (gs : GraphState) (c : Nat)
      (gs' : GraphState), PureNodeDecs decs →
      applyNodeDecorators decs gs = .ok (c, gs') →
      gs'.graph = gs.graph ∧ gs'.edgeAttrs = gs.edgeAttrs ∧
      gs'.edges_decorators = gs.edges_decorators ∧
      gs'.supported_methods = gs.supported_methods ∧
      gs'.boundMethods = gs.boundMethods ∧
      ∃ app, gs'.nodes_decorators = gs.nodes_decorators ++ app := by
  intro decs
  induction decs with
  | nil =>
    intro gs c gs' _ h
    unfold applyNodeDecorators at h
    cases h
    exact ⟨rfl, rfl, rfl, rfl, rfl, [], by simp⟩
  | cons p rest ih =>
    intro gs c gs' hpure h
    have hpure_rest : PureNodeDecs rest := fun q hq => hpure q (List.mem_cons_of_mem p hq)
    obtain ⟨name, fn⟩ := p
    unfold applyNodeDecorators at h
    split at h
    · exact ih _ _ _ hpure_rest h
    · cases hfn : fn gs with
      | error e => rw [hfn] at h; cases h
      | ok t =>
        obtain ⟨k, l, gsM⟩ := t
        have hM : gsM = gs :=
          hpure ⟨name, fn⟩ (List.mem_cons_self _ _) gs k l gsM hfn
        simp only [hfn, hM] at h
        split at h
        · cases hrest : applyNodeDecorators rest gs with
          | error e => simp only [hrest] at h; cases h
          | ok q =>
            obtain ⟨c', gs''⟩ := q
            simp only [hrest] at h
            cases h
            exact ih _ _ _ hpure_rest hrest
        · cases hw : writeNodeAttrs name l gs with
          | error e => simp only [hw] at h; cases h
          | ok gsW =>
            simp only [hw] at h
            cases hrest : applyNodeDecorators rest (add_nodes_decorator gsW name) with
            | error e => simp only [hrest] at h; cases h
            | ok q =>
              obtain ⟨c', gs''⟩ := q
              simp only [hrest] at h
              cases h
              obtain ⟨hg, he, hed, hs, hb, app, happ⟩ := ih _ _ _ hpure_rest hrest
              obtain ⟨wg, we, wn, wed, ws, wb⟩ := writeNodeAttrs_components name l gs gsW hw
              refine ⟨hg.trans wg, he.trans we, hed.trans wed, hs.trans ws, hb.trans wb, ?_⟩
              refine ⟨[name] ++ app, ?_⟩
              rw [happ]
              show (add_nodes_decorator gsW name).nodes_decorators ++ app = _
              unfold add_nodes_decorator
              simp [wn]

/-- With pure decorators, the edge-decorator loop changes only edge
attributes and the edge decoration record, which it only extends. -/
theorem applyEdgeDecorators_components :
    ∀ (decs : List (String × EdgeDecorator)) (gs : GraphState) (c : Nat)
      (gs' : GraphState), PureEdgeDecs decs →
      applyEdgeDecorators decs gs = .ok (c, gs') →
      gs'.graph = gs.graph ∧ gs'.nodeAttrs = gs.nodeAttrs ∧
      gs'.nodes_decorators = gs.nodes_decorators ∧
      gs'.supported_methods = gs.supported_methods ∧
      gs'.boundMethods = gs.boundMethods ∧
      ∃ app, gs'.edges_decorators = gs.edges_decorators ++ app := by
  intro decs
  induction decs with
  | nil =>
    intro gs c gs' _ h
    unfold applyEdgeDecorators at h
    cases h
    exact ⟨rfl, rfl, rfl, rfl, rfl, [], by simp⟩
  | cons p rest ih =>
    intro gs c gs' hpure h
    have hpure_rest : PureEdgeDecs rest := fun q hq => hpure q (List.mem_cons_of_mem p hq)
    obtain ⟨name, fn⟩ := p
    unfold applyEdgeDecorators at h
    split at h
    · exact ih _ _ _ hpure_rest h
    · cases hfn : fn gs with
      | error e => rw [hfn] at h; cases h
      | ok t =>
        obtain ⟨k, l, gsM⟩ := t
        have hM : gsM = gs :=
          hpure ⟨name, fn⟩ (List.mem_cons_self _ _) gs k l gsM hfn
        simp only [hfn, hM] at h
        split at h
        · cases hrest : applyEdgeDecorators rest gs with
          | error e => simp only [hrest] at h; cases h
          | ok q =>
            obtain ⟨c', gs''⟩ := q
            simp only [hrest] at h
            cases h
            exact ih _ _ _ hpure_rest hrest
        · cases hw : writeEdgeAttrs name l gs with
          | error e => simp only [hw] at h; cases h
          | ok gsW =>
            simp only [hw] at h
            cases hrest : applyEdgeDecorators rest (add_edges_decorator gsW name) with
            | error e => simp only [hrest] at h; cases h
            | ok q =>
              obtain ⟨c', gs''⟩ := q
              simp only [hrest] at h
              cases h
              obtain ⟨hg, he, hed, hs, hb, app, happ⟩ := ih _ _ _ hpure_rest hrest
              obtain ⟨wg, we, wn, wed, ws, wb⟩ := writeEdgeAttrs_components name l gs gsW hw
              refine ⟨hg.trans wg, he.trans we, hed.trans wn, hs.trans ws, hb.trans wb, ?_⟩
              refine ⟨[name] ++ app, ?_⟩
              rw [happ]
              show (add_edges_decorator gsW name).edges_decorators ++ app = _
              unfold add_edges_decorator
              simp [wed]

/-- Decorators that always succeed with a non-empty mapping and no mutation. -/
def TotalNodeDecs (decs : List (String × NodeDecorator)) : Prop :=
  ∀ p ∈ decs, ∀ gs, ∃ k l, p.2 gs = .ok (k, l, gs) ∧ l ≠ []

def TotalEdgeDecs (decs : List (String × EdgeDecorator)) : Prop :=
  ∀ p ∈ decs, ∀ gs, ∃ k l, p.2 gs = .ok (k, l, gs) ∧ l ≠ []

theorem totalNodeDecs_pure {decs : List (String × NodeDecorator)}
    (h : TotalNodeDecs decs) : PureNodeDecs decs := by
  intro p hp gs k l gsM hfn
  obtain ⟨k', l', hfn', _⟩ := h p hp gs
  rw [hfn'] at hfn
  cases hfn
  rfl

theorem totalEdgeDecs_pure {decs : List (String × EdgeDecorator)}
    (h : TotalEdgeDecs decs) : PureEdgeDecs decs := by
  intro p hp gs k l gsM hfn
  obtain ⟨k', l', hfn', _⟩ := h p hp gs
  rw [hfn'] at hfn
  cases hfn
  rfl

/-- After a successful pass over total decorators, every decorator's name is
recorded. -/
theorem applyNodeDecorators_marks :
    ∀ (decs : List (String × NodeDecorator)) (gs : GraphState) (c : Nat)
      (gs' : GraphState), TotalNodeDecs decs →
      applyNodeDecorators decs gs = .ok (c, gs') →
      ∀ name ∈ decs.map Prod.fst, name ∈ gs'.nodes_decorators := by
  intro decs
  induction decs with
  | nil => intro gs c gs' _ _ name hname; cases hname
  | cons p rest ih =>
    intro gs c gs' htot h name hname
    have htot_rest : TotalNodeDecs rest := fun q hq => htot q (List.mem_cons_of_mem p hq)
    obtain ⟨name0, fn⟩ := p
    rcases List.mem_cons.mp hname with rfl | hname'
    · -- the head decorator's own name ends up recorded
      unfold applyNodeDecorators at h
      split at h
      · -- already recorded on entry; the rest of the pass only appends
        rename_i hmarked
        obtain ⟨_, _, _, _, _, app, happ⟩ :=
          applyNodeDecorators_components rest gs c gs' (totalNodeDecs_pure htot_rest) h
        rw [happ]
        exact List.mem_append.mpr (Or.inl (by
          simpa [has_nodes_decorated, List.elem_iff] using hmarked))
      · obtain ⟨k, l, hfn, hne⟩ := htot ⟨name, fn⟩ (List.mem_cons_self _ _) gs
        have hfn2 : fn gs = Except.ok (k, l, gs) := hfn
        simp only [hfn2] at h
        split at h
        · rename_i hl; exact absurd hl hne
        · cases hw : writeNodeAttrs name l gs with
          | error e => simp only [hw] at h; cases h
          | ok gsW =>
            simp only [hw] at h
            cases hrest : applyNodeDecorators rest (add_nodes_decorator gsW name) with
            | error e => simp only [hrest] at h; cases h
            | ok q =>
              obtain ⟨c', gs''⟩ := q
              simp only [hrest] at h
              cases h
              obtain ⟨_, _, _, _, _, app, happ⟩ :=
                applyNodeDecorators_components rest _ c' _ (totalNodeDecs_pure htot_rest) hrest
              rw [happ]
              refine List.mem_append.mpr (Or.inl ?_)
              unfold add_nodes_decorator
              simp
    · -- a name from the tail
      unfold applyNodeDecorators at h
      split at h
      · exact ih _ _ _ htot_rest h name hname'
      · obtain ⟨k, l, hfn, hne⟩ := htot ⟨name0, fn⟩ (List.mem_cons_self _ _) gs
        have hfn2 : fn gs = Except.ok (k, l, gs) := hfn
        simp only [hfn2] at h
        split at h
        · rename_i hl; exact absurd hl hne
        · cases hw : writeNodeAttrs name0 l gs with
          | error e => simp only [hw] at h; cases h
          | ok gsW =>
            simp only [hw] at h
            cases hrest : applyNodeDecorators rest (add_nodes_decorator gsW name0) with
            | error e => simp only [hrest] at h; cases h
            | ok q =>
              obtain ⟨c', gs''⟩ := q
              simp only [hrest] at h
              cases h
              exact ih _ _ _ htot_rest hrest name hname'

theorem applyEdgeDecorators_marks :
    ∀ (decs : List (String × EdgeDecorator)) (gs : GraphState) (c : Nat)
      (gs' : GraphState), TotalEdgeDecs decs →
      applyEdgeDecorators decs gs = .ok (c, gs') →
      ∀ name ∈ decs.map Prod.fst, name ∈ gs'.edges_decorators := by
  intro decs
  induction decs with
  | nil => intro gs c gs' _ _ name hname; cases hname
  | cons p rest ih =>
    intro gs c gs' htot h name hname
    have htot_rest : TotalEdgeDecs rest := fun q hq => htot q (List.mem_cons_of_mem p hq)
    obtain ⟨name0, fn⟩ := p
    rcases List.mem_cons.mp hname with rfl | hname'
    · unfold applyEdgeDecorators at h
      split at h
      · rename_i hmarked
        obtain ⟨_, _, _, _, _, app, happ⟩ :=
          applyEdgeDecorators_components rest gs c gs' (totalEdgeDecs_pure htot_rest) h
        rw [happ]
        exact List.mem_append.mpr (Or.inl (by
          simpa [has_edges_decorated, List.elem_iff] using hmarked))
      · obtain ⟨k, l, hfn, hne⟩ := htot ⟨name, fn⟩ (List.mem_cons_self _ _) gs
        have hfn2 : fn gs = Except.ok (k, l, gs) := hfn
        simp only [hfn2] at h
        split at h
        · rename_i hl; exact absurd hl hne
        · cases hw : writeEdgeAttrs name l gs with
          | error e => simp only [hw] at h; cases h
          | ok gsW =>
            simp only [hw] at h
            cases hrest : applyEdgeDecorators rest (add_edges_decorator gsW name) with
            | error e => simp only [hrest] at h; cases h
            | ok q =>
              obtain ⟨c', gs''⟩ := q
              simp only [hrest] at h
              cases h
              obtain ⟨_, _, _, _, _, app, happ⟩ :=
                applyEdgeDecorators_components rest _ c' _ (totalEdgeDecs_pure htot_rest) hrest
              rw [happ]
              refine List.mem_append.mpr (Or.inl ?_)
              unfold add_edges_decorator
              simp
    · unfold applyEdgeDecorators at h
      split at h
      · exact ih _ _ _ htot_rest h name hname'
      · obtain ⟨k, l, hfn, hne⟩ := htot ⟨name0, fn⟩ (List.mem_cons_self _ _) gs
        have hfn2 : fn gs = Except.ok (k, l, gs) := hfn
        simp only [hfn2] at h
        split at h
        · rename_i hl; exact absurd hl hne
        · cases hw : writeEdgeAttrs name0 l gs with
          | error e => simp only [hw] at h; cases h
          | ok gsW =>
            simp only [hw] at h
            cases hrest : applyEdgeDecorators rest (add_edges_decorator gsW name0) with
            | error e => simp only [hrest] at h; cases h
            | ok q =>
              obtain ⟨c', gs''⟩ := q
              simp only [hrest] at h
              cases h
              exact ih _ _ _ htot_rest hrest name hname'

/-- A pass in which every decorator name is already recorded is a no-op with
zero invocations. -/
theorem applyNodeDecorators_skip :
    ∀ (decs : List (String × NodeDecorator)) (gs : GraphState),
      (∀ name ∈ decs.map Prod.fst, name ∈ gs.nodes_decorators) →
      applyNodeDecorators decs gs = .ok (0, gs) := by
  intro decs
  induction decs with
  | nil => intro gs _; rfl
  | cons p rest ih =>
    intro gs hmarked
    obtain ⟨name, fn⟩ := p
    unfold applyNodeDecorators
    have hm : has_nodes_decorated gs name = true := by
      simp only [has_nodes_decorated, List.elem_iff]
      exact hmarked name (List.mem_map_of_mem Prod.fst (List.mem_cons_self _ _))
    rw [if_pos hm]
    exact ih gs (fun n hn => hmarked n (by
      rw [List.map_cons]
      exact List.mem_cons_of_mem _ hn))

theorem applyEdgeDecorators_skip :
    ∀ (decs : List (String × EdgeDecorator)) (gs : GraphState),
      (∀ name ∈ decs.map Prod.fst, name ∈ gs.edges_decorators) →
      applyEdgeDecorators decs gs = .ok (0, gs) := by
  intro decs
  induction decs with
  | nil => intro gs _; rfl
  | cons p rest ih =>
    intro gs hmarked
    obtain ⟨name, fn⟩ := p
    unfold applyEdgeDecorators
    have hm : has_edges_decorated gs name = true := by
      simp only [has_edges_decorated, List.elem_iff]
      exact hmarked name (List.mem_map_of_mem Prod.fst (List.mem_cons_self _ _))
    rw [if_pos hm]
    exact ih gs (fun n hn => hmarked n (by
      rw [List.map_cons]
      exact List.mem_cons_of_mem _ hn))

/-- Binding methods records every name. -/
theorem bindMethods_mem :
    ∀ (ms : List String) (gs : GraphState) (m : String),
      m ∈ ms ∨ m ∈ gs.boundMethods → m ∈ (ms.foldl bindMethod gs).boundMethods := by
  intro ms
  induction ms with
  | nil =>
    intro gs m hm
    rcases hm with h | h
    · cases h
    · exact h
  | cons m0 rest ih =>
    intro gs m hm
    show m ∈ (rest.foldl bindMethod (bindMethod gs m0)).boundMethods
    have hbind : ∀ n, n ∈ gs.boundMethods ∨ n = m0 → n ∈ (bindMethod gs m0).boundMethods := by
      intro n hn
      unfold bindMethod
      split
      · rcases hn with h | rfl
        · exact h
        · assumption
      · rcases hn with h | rfl
        · simp [h]
        · simp
    rcases hm with h | h
    · rcases List.mem_cons.mp h with rfl | hrest
      · exact ih _ m (Or.inr (hbind m (Or.inr rfl)))
      · exact ih _ m (Or.inl hrest)
    · exact ih _ m (Or.inr (hbind m (Or.inl h)))

/-- Binding methods whose names are all already bound is the identity. -/
theorem bindMethods_skip :
    ∀ (ms : List String) (gs : GraphState),
      (∀ m ∈ ms, m ∈ gs.boundMethods) → ms.foldl bindMethod gs = gs := by
  intro ms
  induction ms with
  | nil => intro gs _; rfl
  | cons m0 rest ih =>
    intro gs hm
    show rest.foldl bindMethod (bindMethod gs m0) = gs
    have h0 : bindMethod gs m0 = gs := by
      unfold bindMethod
      rw [if_pos (hm m0 (by simp))]
    rw [h0]
    exact ih gs (fun m hmem => hm m (by simp [hmem]))

/-- Binding methods changes only the bound-method table. -/
theorem bindMethods_components :
    ∀ (ms : List String) (gs : GraphState),
      (ms.foldl bindMethod gs).graph = gs.graph ∧
      (ms.foldl bindMethod gs).nodeAttrs = gs.nodeAttrs ∧
      (ms.foldl bindMethod gs).edgeAttrs = gs.edgeAttrs ∧
      (ms.foldl bindMethod gs).nodes_decorators = gs.nodes_decorators ∧
      (ms.foldl bindMethod gs).edges_decorators = gs.edges_decorators ∧
      (ms.foldl bindMethod gs).supported_methods = gs.supported_methods := by
  intro ms
  induction ms with
  | nil => intro gs; exact ⟨rfl, rfl, rfl, rfl, rfl, rfl⟩
  | cons m0 rest ih =>
    intro gs
    have hb : (bindMethod gs m0).graph = gs.graph ∧
        (bindMethod gs m0).nodeAttrs = gs.nodeAttrs ∧
        (bindMethod gs m0).edgeAttrs = gs.edgeAttrs ∧
        (bindMethod gs m0).nodes_decorators = gs.nodes_decorators ∧
        (bindMethod gs m0).edges_decorators = gs.edges_decorators ∧
        (bindMethod gs m0).supported_methods = gs.supported_methods := by
      unfold bindMethod
      split
      · exact ⟨rfl, rfl, rfl, rfl, rfl, rfl⟩
      · exact ⟨rfl, rfl, rfl, rfl, rfl, rfl⟩
    obtain ⟨h1, h2, h3, h4, h5, h6⟩ := ih (bindMethod gs m0)
    exact ⟨h1.trans hb.1, h2.trans hb.2.1, h3.trans hb.2.2.1,
      h4.trans hb.2.2.2.1, h5.trans hb.2.2.2.2.1, h6.trans hb.2.2.2.2.2⟩

/-- A `decorate_graph` pass in which every decorator name is already
recorded and every method already bound returns the state unchanged with
zero invocations. -/
theorem decorate_graph_skip (nds : List (String × NodeDecorator))
    (eds : List (String × EdgeDecorator)) (ms : List String) (S : GraphState)
    (hN : ∀ name ∈ nds.map Prod.fst, name ∈ S.nodes_decorators)
    (hE : ∀ name ∈ eds.map Prod.fst, name ∈ S.edges_decorators)
    (hB : ∀ m ∈ ms, m ∈ S.boundMethods) :
    decorate_graph S nds eds ms false false = .ok (0, S) := by
  unfold decorate_graph
  simp only [Bool.false_eq_true, if_false, Except.bind, bind,
    applyNodeDecorators_skip nds S hN, applyEdgeDecorators_skip eds S hE,
    bindMethods_skip ms S hB]

/-! ### C6 — idempotence of augmentation, with the empty-result caveat -/

/-- C6: (i) for decorators that always return non-empty mappings, a second
`decorate_graph` pass with `clear = false` is a no-op — every name was
recorded by the first pass, so nothing is re-invoked and all attribute
values are exactly those of the single application; (ii) the caveat: a
decorator returning an empty mapping leaves the graph state completely
unchanged — in particular its name is not recorded as applied — so any
later pass finds it unrecorded and invokes it again (contributing its
invocation count `k` again instead of the `0` of a skipped decorator). -/
theorem decorate_graph_idempotent_with_caveat :
    (∀ (nds : List (String × NodeDecorator)) (eds : List (String × EdgeDecorator))
      (ms : List String) (gs : GraphState) (c : Nat) (gs₁ : GraphState),
      TotalNodeDecs nds → TotalEdgeDecs eds →
      decorate_graph gs nds eds ms false false = .ok (c, gs₁) →
      decorate_graph gs₁ nds eds ms false false = .ok (0, gs₁))
    ∧ (∀ (name : String) (fn : NodeDecorator) (gs : GraphState) (k : Nat),
      name ∉ gs.nodes_decorators → fn gs = .ok (k, [], gs) →
      decorate_graph gs [(name, fn)] [] [] false false = .ok (k, gs)) := by
  constructor
  · intro nds eds ms gs c gs₁ htn hte hcall
    unfold decorate_graph at hcall
    simp only [Bool.false_eq_true, if_false, Except.bind, bind] at hcall
    cases h1 : applyNodeDecorators nds gs with
    | error e => rw [h1] at hcall; cases hcall
    | ok p =>
      obtain ⟨cn, gsA⟩ := p
      simp only [h1] at hcall
      cases h2 : applyEdgeDecorators eds gsA with
      | error e => simp only [h2] at hcall; cases hcall
      | ok q =>
        obtain ⟨ce, gsB⟩ := q
        simp only [h2] at hcall
        cases hcall
        -- the final state is `ms.foldl bindMethod gsB`; collect the markings
        have hnodeMarks : ∀ name ∈ nds.map Prod.fst,
            name ∈ (ms.foldl bindMethod gsB).nodes_decorators := by
          intro name hname
          have hA := applyNodeDecorators_marks nds gs cn gsA htn h1 name hname
          have hAB : gsB.nodes_decorators = gsA.nodes_decorators :=
            (applyEdgeDecorators_components eds gsA ce gsB (totalEdgeDecs_pure hte) h2).2.2.1
          have hB := (bindMethods_components ms gsB).2.2.2.1
          rw [hB, hAB]
          exact hA
        have hedgeMarks : ∀ name ∈ eds.map Prod.fst,
            name ∈ (ms.foldl bindMethod gsB).edges_decorators := by
          intro name hname
          have hB2 := applyEdgeDecorators_marks eds gsA ce gsB hte h2 name hname
          have hB := (bindMethods_components ms gsB).2.2.2.2.1
          rw [hB]
          exact hB2
        have hbound : ∀ m ∈ ms, m ∈ (ms.foldl bindMethod gsB).boundMethods :=
          fun m hm => bindMethods_mem ms gsB m (Or.inl hm)
        -- second pass: everything is skipped
        exact decorate_graph_skip nds eds ms _ hnodeMarks hedgeMarks hbound
  · intro name fn gs k hfr hemp
    unfold decorate_graph
    simp only [Bool.false_eq_true, if_false, Except.bind, bind]
    have hnm : has_nodes_decorated gs name = false := by
      simp only [has_nodes_decorated]
      rw [Bool.eq_false_iff]
      intro hc
      exact hfr (List.elem_iff.mp hc)
    unfold applyNodeDecorators
    rw [hnm]
    simp only [Bool.false_eq_true, if_false, hemp]
    show Except.ok (k + 0 + 0, gs) = Except.ok (k, gs)
    norm_num

/-- Concrete instance of C6 part (i): decorating a one-node graph with a
constant decorator twice with `clear = false` reproduces the state of the
single application with zero further invocations. -/
theorem decorate_graph_idempotent_witness :
    decorate_graph
        { graph := { nodes := [0], edges := [], directed := false },
          nodeAttrs := [((0, "a"), 1)], edgeAttrs := [], nodes_decorators := ["a"],
          edges_decorators := [], supported_methods := none, boundMethods := [] }
        [("a", fun gsx => .ok (1, [(0, 1)], gsx))] [] [] false false
      = .ok (0,
        { graph := { nodes := [0], edges := [], directed := false },
          nodeAttrs := [((0, "a"), 1)], edgeAttrs := [], nodes_decorators := ["a"],
          edges_decorators := [], supported_methods := none, boundMethods := [] }) := by
  have htn : TotalNodeDecs [("a", fun gsx => .ok (1, [(0, 1)], gsx))] := by
    intro p hp gsx
    rcases List.mem_singleton.mp hp with rfl
    exact ⟨1, [(0, 1)], rfl, by simp⟩
  have hte : TotalEdgeDecs ([] : List (String × EdgeDecorator)) := by
    intro p hp
    cases hp
  refine decorate_graph_idempotent_with_caveat.1
    [("a", fun gsx => .ok (1, [(0, 1)], gsx))] [] []
    { graph := { nodes := [0], edges := [], directed := false },
      nodeAttrs := [], edgeAttrs := [], nodes_decorators := [],
      edges_decorators := [], supported_methods := none, boundMethods := [] }
    1 _ htn hte ?_
  norm_num [decorate_graph, applyNodeDecorators, applyEdgeDecorators, has_nodes_decorated,
    writeNodeAttrs, add_nodes_decorator, dictSet, Except.bind, bind]

/-! ### C3 — repeated `get_graph_with_energy_data` calls -/

/-- The graph state produced by augmenting a fresh two-node path with the
stub `randic` energies. -/
def c3State : GraphState :=
  { graph := pathGraph,
    nodeAttrs := [((0, "randic_energy"), 1), ((1, "randic_energy"), 2)],
    edgeAttrs := [(((0, 1), "randic_gradient"), 1)],
    nodes_decorators := ["randic_energy"],
    edges_decorators := ["randic_gradient"],
    supported_methods := none,
    boundMethods := ["get_gradient", "get_path_energy"] }

/-- C3 fails as stated: on a concrete two-node graph, the first
`get_graph_with_energy_data` call already invokes the underlying energy
function twice — once for the node-energy decorator and once inside the
gradient edge decorator (which recomputes the energies) — and the second
call invokes it zero times, so the total over both calls is 2, not 1. -/
theorem with_energy_data_not_single_invocation :
    get_graph_with_energy_data scenarioRegistry (freshGS pathGraph) ["randic"] 1 false false
      = .ok (2, c3State)
    ∧ get_graph_with_energy_data scenarioRegistry c3State ["randic"] 1 false false
      = .ok (0, c3State)
    ∧ (2 + 0 ≠ 1) := by
  refine ⟨?_, ?_, by decide⟩
  · norm_num +decide [get_graph_with_energy_data, _get_energy_method, decorate_graph,
      applyNodeDecorators, applyEdgeDecorators, has_nodes_decorated, has_edges_decorated,
      writeNodeAttrs, writeEdgeAttrs, add_nodes_decorator, add_edges_decorator, bindMethod,
      dictSet, dictGet, get_energy_gradients, _gradients_loop, Graph.hasEdge, Graph.edgeKey,
      _compute_gradient, scenarioRegistry, stubEnergy, pathGraph, freshGS, Except.bind, bind,
      pure, Except.pure, _get_energy_method_name, _get_gradient_method_name, List.mapM,
      List.mapM.loop, c3State]
  · norm_num +decide [get_graph_with_energy_data, _get_energy_method, decorate_graph,
      applyNodeDecorators, applyEdgeDecorators, has_nodes_decorated, has_edges_decorated,
      writeNodeAttrs, writeEdgeAttrs, add_nodes_decorator, add_edges_decorator, bindMethod,
      dictSet, dictGet, get_energy_gradients, _gradients_loop, Graph.hasEdge, Graph.edgeKey,
      _compute_gradient, scenarioRegistry, stubEnergy, pathGraph, freshGS, Except.bind, bind,
      pure, Except.pure, _get_energy_method_name, _get_gradient_method_name, List.mapM,
      List.mapM.loop, c3State]

/-- C3 amended: calling `get_graph_with_energy_data` with
`methods = ["randic"]` twice with `copy = false, clear = false` on a graph
not yet decorated for `randic` invokes the underlying energy function
exactly twice in total — both invocations during the first call (one by the
node-energy decorator, one inside the gradient edge decorator) — and the
second call is a complete no-op: zero invocations and an unchanged state. -/
theorem with_energy_data_double_call (R : EnergyRegistry) (gs : GraphState) (radius : Nat)
    (c : Nat) (gs₁ : GraphState)
    (h1 : "randic_energy" ∉ gs.nodes_decorators)
    (h2 : "randic_gradient" ∉ gs.edges_decorators)
    (hne : R.randic gs.graph radius ≠ [])
    (hgne : ∀ l, get_energy_gradients R gs.graph "randic" false radius = .ok l → l ≠ [])
    (hcall : get_graph_with_energy_data R gs ["randic"] radius false false = .ok (c, gs₁)) :
    c = 2 ∧ get_graph_with_energy_data R gs₁ ["randic"] radius false false = .ok (0, gs₁) := by
  have hdef : ∀ gsx, get_graph_with_energy_data R gsx ["randic"] radius false false
      = decorate_graph gsx
          [("randic_energy", fun gsy => Except.ok (1, R.randic gsy.graph radius, gsy))]
          [("randic_gradient", fun gsy =>
            (get_energy_gradients R gsy.graph "randic" false radius).bind
              (fun grads => Except.ok (1, grads, gsy)))]
          ["get_gradient", "get_path_energy"] false false := fun gsx => rfl
  rw [hdef] at hcall
  have hnm : has_nodes_decorated gs "randic_energy" = false := by
    simp only [has_nodes_decorated]
    rw [Bool.eq_false_iff]
    intro hc
    exact h1 (List.elem_iff.mp hc)
  cases hw : writeNodeAttrs "randic_energy" (R.randic gs.graph radius) gs with
  | error e =>
    simp [decorate_graph, applyNodeDecorators, applyEdgeDecorators, Except.bind, bind,
      hnm, hne, hw] at hcall
  | ok gsW =>
    obtain ⟨wg, we, wn, wed, ws, wb⟩ := writeNodeAttrs_components _ _ _ _ hw
    have hgraphA : (add_nodes_decorator gsW "randic_energy").graph = gs.graph := wg
    have hem : has_edges_decorated (add_nodes_decorator gsW "randic_energy")
        "randic_gradient" = false := by
      simp only [has_edges_decorated, add_nodes_decorator]
      rw [Bool.eq_false_iff]
      intro hc
      rw [List.elem_iff] at hc
      exact h2 (wed ▸ hc)
    cases hge : get_energy_gradients R gs.graph "randic" false radius with
    | error e =>
      have hge' : get_energy_gradients R (add_nodes_decorator gsW "randic_energy").graph
          "randic" false radius = .error e := by rw [hgraphA]; exact hge
      simp [decorate_graph, applyNodeDecorators, applyEdgeDecorators, Except.bind, bind,
        hnm, hne, hw, hem, hge'] at hcall
    | ok grads =>
      have hgrne : grads ≠ [] := hgne grads hge
      have hge' : get_energy_gradients R (add_nodes_decorator gsW "randic_energy").graph
          "randic" false radius = .ok grads := by rw [hgraphA]; exact hge
      cases hw2 : writeEdgeAttrs "randic_gradient" grads
          (add_nodes_decorator gsW "randic_energy") with
      | error e =>
        simp [decorate_graph, applyNodeDecorators, applyEdgeDecorators, Except.bind, bind,
          hnm, hne, hw, hem, hge', hgrne, hw2] at hcall
      | ok gsW2 =>
        obtain ⟨wg2, we2, wn2, wed2, ws2, wb2⟩ := writeEdgeAttrs_components _ _ _ _ hw2
        simp [decorate_graph, applyNodeDecorators, applyEdgeDecorators, Except.bind, bind,
          hnm, hne, hw, hem, hge', hgrne, hw2] at hcall
        obtain ⟨hc, hgs⟩ := hcall
        have hgs' : List.foldl bindMethod (add_edges_decorator gsW2 "randic_gradient")
            ["get_gradient", "get_path_energy"] = gs₁ := hgs
        constructor
        · omega
        · rw [hdef]
          have hmarkN : "randic_energy"
              ∈ (add_edges_decorator gsW2 "randic_gradient").nodes_decorators := by
            show "randic_energy" ∈ gsW2.nodes_decorators
            rw [wn2]
            show "randic_energy" ∈ gsW.nodes_decorators ++ ["randic_energy"]
            simp
          have hmarkE : "randic_gradient"
              ∈ (add_edges_decorator gsW2 "randic_gradient").edges_decorators := by
            show "randic_gradient" ∈ gsW2.edges_decorators ++ ["randic_gradient"]
            simp
          have hN : ∀ name ∈ ([("randic_energy",
                fun gsy => Except.ok (1, R.randic gsy.graph radius, gsy))] :
                List (String × NodeDecorator)).map Prod.fst,
              name ∈ gs₁.nodes_decorators := by
            intro name hname
            rcases List.mem_singleton.mp hname with rfl
            rw [← hgs', (bindMethods_components _ _).2.2.2.1]
            exact hmarkN
          have hE : ∀ name ∈ ([("randic_gradient", fun gsy =>
                (get_energy_gradients R gsy.graph "randic" false radius).bind
                  (fun grads => Except.ok (1, grads, gsy)))] :
                List (String × EdgeDecorator)).map Prod.fst,
              name ∈ gs₁.edges_decorators := by
            intro name hname
            rcases List.mem_singleton.mp hname with rfl
            rw [← hgs', (bindMethods_components _ _).2.2.2.2.1]
            exact hmarkE
          have hB : ∀ m ∈ ["get_gradient", "get_path_energy"], m ∈ gs₁.boundMethods := by
            intro m hm
            rw [← hgs']
            exact bindMethods_mem _ _ m (Or.inl hm)
          exact decorate_graph_skip _ _ _ gs₁ hN hE hB

/-- Concrete instance of the amended C3, obtained from the main theorem: on
the fresh two-node path the first call counts 2 energy invocations and the
second call is a no-op. -/
theorem with_energy_data_double_call_witness :
    (2 : Nat) = 2
    ∧ get_graph_with_energy_data scenarioRegistry c3State ["randic"] 1 false false
        = .ok (0, c3State) := by
  have hcall : get_graph_with_energy_data scenarioRegistry (freshGS pathGraph)
      ["randic"] 1 false false = .ok (2, c3State) := by
    norm_num +decide [get_graph_with_energy_data, _get_energy_method, decorate_graph,
      applyNodeDecorators, applyEdgeDecorators, has_nodes_decorated, has_edges_decorated,
      writeNodeAttrs, writeEdgeAttrs, add_nodes_decorator, add_edges_decorator, bindMethod,
      dictSet, dictGet, get_energy_gradients, _gradients_loop, Graph.hasEdge, Graph.edgeKey,
      _compute_gradient, scenarioRegistry, stubEnergy, pathGraph, freshGS, Except.bind, bind,
      pure, Except.pure, _get_energy_method_name, _get_gradient_method_name, List.mapM,
      List.mapM.loop, c3State]
  exact with_energy_data_double_call scenarioRegistry (freshGS pathGraph) 1 2 c3State
    (by decide) (by decide)
    (by simp [scenarioRegistry, stubEnergy, pathGraph, freshGS])
    (by
      intro l hl
      have : l = [((0, 1), 1)] := by
        have heval : get_energy_gradients scenarioRegistry (freshGS pathGraph).graph
            "randic" false 1 = .ok [((0, 1), 1)] := by
          norm_num +decide [get_energy_gradients, _get_energy_method, Except.bind, bind,
            _gradients_loop, dictGet, dictSet, scenarioRegistry, pathGraph, freshGS,
            _compute_gradient, stubEnergy]
        rw [heval] at hl
        cases hl
        rfl
      rw [this]
      simp)
    hcall

/-! ### C4 — the bound gradient query -/

/-- C4 fails on the code: no code path in the module ever sets the
`supported_methods` attribute — in particular `get_graph_with_energy_data`
does not — so on a graph returned by it, `get_gradient` raises
`AttributeError` (reading `graph.supported_methods`) for a method that WAS
applied just as for one that was not, instead of returning the stored
energy difference resp. raising the "unsupported method" `ValueError`. -/
theorem get_gradient_always_attribute_error :
    get_graph_with_energy_data scenarioRegistry (freshGS pathGraph) ["randic"] 1 false false
      = .ok (2, c3State)
    ∧ c3State.supported_methods = none
    ∧ dictGet c3State.nodeAttrs (0, _get_energy_method_name "randic") = some 1
    ∧ dictGet c3State.nodeAttrs (1, _get_energy_method_name "randic") = some 2
    ∧ _get_gradient c3State 0 1 "randic" = .error .attributeError
    ∧ _get_gradient c3State 0 1 "graph" = .error .attributeError := by
  refine ⟨?_, rfl, ?_, ?_, rfl, rfl⟩
  · norm_num +decide [get_graph_with_energy_data, _get_energy_method, decorate_graph,
      applyNodeDecorators, applyEdgeDecorators, has_nodes_decorated, has_edges_decorated,
      writeNodeAttrs, writeEdgeAttrs, add_nodes_decorator, add_edges_decorator, bindMethod,
      dictSet, dictGet, get_energy_gradients, _gradients_loop, Graph.hasEdge, Graph.edgeKey,
      _compute_gradient, scenarioRegistry, stubEnergy, pathGraph, freshGS, Except.bind, bind,
      pure, Except.pure, _get_energy_method_name, _get_gradient_method_name, List.mapM,
      List.mapM.loop, c3State]
  · decide
  · decide

/-! ### C5 — the community-split edge selector -/

/-- C5 fails on the code: whenever the gradient computation itself succeeds,
`most_central_edge` raises `TypeError`, because `operator.itemgetter(1)` is
passed to `max` as a second positional argument (not as `key=`), and Python
cannot order-compare a `dict_items` view with an `itemgetter` object.  The
selector therefore never returns a maximum-gradient edge, and iterating the
`girvan_newman` generator raises instead of yielding partitions. -/
theorem most_central_edge_type_error (R : EnergyRegistry) (method : String) (g : Graph)
    (grads : List (Edge × Val))
    (h : get_energy_gradients R g method false 1 = .ok grads) :
    most_central_edge R method g = .error .typeError := by
  unfold most_central_edge
  simp [h, Except.bind, bind, pyMax2, pyGT]

/-- The single-bridge graph of end-to-end scenario C: two triangles joined
by the bridge `(2, 3)`. -/
def bridgeGraph : Graph :=
  { nodes := [0, 1, 2, 3, 4, 5],
    edges := [(0, 1), (0, 2), (1, 2), (2, 3), (3, 4), (3, 5), (4, 5)],
    directed := false }

/-- Concrete instance: on the bridge graph with stub energies the selector
raises `TypeError` (rather than selecting the bridge for the first split). -/
theorem most_central_edge_type_error_witness :
    most_central_edge scenarioRegistry "randic" bridgeGraph = .error .typeError := by
  refine most_central_edge_type_error scenarioRegistry "randic" bridgeGraph
    [((0, 1), 1), ((0, 2), 2), ((1, 2), 1), ((2, 3), 1), ((3, 4), 1), ((3, 5), 2), ((4, 5), 1)]
    ?_
  norm_num +decide [get_energy_gradients, _get_energy_method, Except.bind, bind,
    _gradients_loop, dictGet, dictSet, scenarioRegistry, bridgeGraph, _compute_gradient,
    stubEnergy]

/-! ### C9 — the activation registry -/

/-- C9 fails as stated: `elu` is in the registry but is not monotone — on
negative inputs it equals `log10(|g| + 1)`, which grows as `g` decreases, so
`elu (-9) = 1 > 0 = elu 0` although `-9 < 0`. -/
theorem elu_in_registry_not_monotone :
    ("elu", elu) ∈ ACTIVATIONS ∧ ¬ Monotone elu
    ∧ elu (-9) = 1 ∧ elu 0 = 0 ∧ (-9 : ℝ) < 0 := by
  have h9 : elu (-9) = 1 := by
    unfold elu log10
    rw [if_neg (by norm_num)]
    rw [show |(-9 : ℝ)| + 1 = 10 by rw [abs_of_nonpos (by norm_num)]; norm_num]
    exact div_self (by positivity)
  have h0 : elu 0 = 0 := by unfold elu; rw [if_pos le_rfl]
  refine ⟨by simp [ACTIVATIONS], ?_, h9, h0, by norm_num⟩
  intro hmono
  have := hmono (show (-9 : ℝ) ≤ 0 by norm_num)
  rw [h9, h0] at this
  norm_num at this

/-- C9 amended: both registry activations map every real gradient to a
non-negative weight; `relu` clamps non-positive inputs to zero, is the
identity on positive inputs, and is monotone; `elu` is the identity on
non-negative inputs and maps a negative input `g` to `log10(|g| + 1)` —
non-negative, but (contrary to the claim) not monotone. -/
theorem activations_nonneg_and_shapes :
    Monotone relu
    ∧ (∀ x : ℝ, 0 ≤ relu x)
    ∧ (∀ x : ℝ, 0 < x → relu x = x)
    ∧ (∀ x : ℝ, x ≤ 0 → relu x = 0)
    ∧ (∀ x : ℝ, 0 ≤ x → elu x = x)
    ∧ (∀ x : ℝ, x < 0 → elu x = log10 (|x| + 1))
    ∧ (∀ x : ℝ, 0 ≤ elu x) := by
  refine ⟨?_, ?_, ?_, ?_, ?_, ?_, ?_⟩
  · intro a b hab
    unfold relu
    split_ifs with h1 h2 h2
    · exact hab
    · linarith
    · linarith
    · exact le_rfl
  · intro x
    unfold relu
    split_ifs with h
    · exact le_of_lt h
    · exact le_rfl
  · intro x hx
    unfold relu
    rw [if_pos hx]
  · intro x hx
    unfold relu
    rw [if_neg (by linarith)]
  · intro x hx
    unfold elu
    rw [if_pos hx]
  · intro x hx
    unfold elu
    rw [if_neg (by linarith)]
  · intro x
    unfold elu
    split_ifs with h
    · exact h
    · unfold log10
      apply div_nonneg
      · exact Real.log_nonneg (by
          have := abs_nonneg x
          linarith)
      · exact le_of_lt (Real.log_pos (by norm_num))

/-- Concrete instances of the amended C9, obtained from the main theorem. -/
theorem activations_nonneg_and_shapes_witness :
    relu 5 = 5 ∧ relu (-2) = 0 ∧ elu 3 = 3
    ∧ elu (-2) = log10 (|(-2 : ℝ)| + 1) ∧ (0 : ℝ) ≤ relu (-7) :=
  ⟨activations_nonneg_and_shapes.2.2.1 5 (by norm_num),
   activations_nonneg_and_shapes.2.2.2.1 (-2) (by norm_num),
   activations_nonneg_and_shapes.2.2.2.2.1 3 (by norm_num),
   activations_nonneg_and_shapes.2.2.2.2.2.1 (-2) (by norm_num),
   activations_nonneg_and_shapes.2.1 (-7)⟩

/-! ### C7 — centrality result keys and error policy -/

theorem Graph.to_directed_nodes (g : Graph) : g.to_directed.nodes = g.nodes := by
  unfold Graph.to_directed
  split <;> rfl

/-- The gradient decorator of the centrality engine is pure. -/
theorem gradient_decorator_pure (R : EnergyRegistry) (method : String) (act : Val → Val)
    (radius : Nat) :
    PureEdgeDecs [("gradient", _gradient_decorator R method act radius)] := by
  intro p hp gsx k l gsM hfn
  rcases List.mem_singleton.mp hp with rfl
  have hfn' : _gradient_decorator R method act radius gsx = .ok (k, l, gsM) := hfn
  unfold _gradient_decorator at hfn'
  cases hge : get_energy_gradients R gsx.graph method false radius with
  | error e => simp [hge, Except.bind, bind] at hfn'
  | ok grads =>
    simp only [hge, Except.bind, bind, pure, Except.pure] at hfn'
    cases hfn'
    rfl

/-- The decorated state built by the centrality engine keeps the node set of
the input graph. -/
theorem g_with_data_nodes (R : EnergyRegistry) (gs : GraphState) (method : String)
    (act : Val → Val) (radius : Nat) (copy clear : Bool) (c : Nat) (gd : GraphState)
    (h : _g_with_data R gs method act radius copy clear = .ok (c, gd)) :
    gd.graph.nodes = gs.graph.nodes := by
  unfold _g_with_data decorate_graph at h
  simp only [applyNodeDecorators, Except.bind, bind] at h
  cases hE : applyEdgeDecorators
      [("gradient", _gradient_decorator R method act radius)]
      (if clear then
        clearState (if copy then
          copyState (if gs.graph.directed then gs else to_directed_state gs)
        else (if gs.graph.directed then gs else to_directed_state gs))
      else (if copy then
          copyState (if gs.graph.directed then gs else to_directed_state gs)
        else (if gs.graph.directed then gs else to_directed_state gs))) with
  | error e => rw [hE] at h; cases h
  | ok q =>
    obtain ⟨ce, gsB⟩ := q
    simp only [hE] at h
    cases h
    have hcomp := (applyEdgeDecorators_components _ _ _ _
      (gradient_decorator_pure R method act radius) hE).1
    show gsB.graph.nodes = gs.graph.nodes
    rw [hcomp]
    have hbase : ∀ gsx : GraphState,
        (if clear then clearState (if copy then copyState gsx else gsx)
         else (if copy then copyState gsx else gsx)).graph = gsx.graph := by
      intro gsx
      cases clear <;> cases copy <;> rfl
    rw [hbase]
    cases hdir : gs.graph.directed with
    | true => simp [hdir]
    | false =>
      simp only [hdir, Bool.false_eq_true, if_false]
      show (to_directed_state gs).graph.nodes = gs.graph.nodes
      unfold to_directed_state
      exact Graph.to_directed_nodes gs.graph

/-- C7: assuming the rank-propagation primitive returns a score per node of
the graph it is given (the networkx contract), `get_energy_gradient_centrality`
(i) on convergence returns a mapping whose keys are exactly the input
graph's nodes, (ii) on `PowerIterationFailedConvergence` returns `None`
(after a logged warning) rather than raising, and (iii) propagates every
other exception unchanged. -/
theorem energy_gradient_centrality_keys_and_errors (pagerank : PageRankFn)
    (R : EnergyRegistry) (gs : GraphState) (method : String) (act : Val → Val)
    (radius : Nat) (copy clear : Bool)
    (Hpr : ∀ gs' s, pagerank gs' = .ok s → s.map Prod.fst = gs'.graph.nodes) :
    (∀ s after, get_energy_gradient_centrality pagerank R gs method act radius copy clear
        = .ok (some s, after) → s.map Prod.fst = gs.graph.nodes)
    ∧ (∀ c gd, _g_with_data R gs method act radius copy clear = .ok (c, gd) →
        pagerank gd = .error .powerIterationFailedConvergence →
        get_energy_gradient_centrality pagerank R gs method act radius copy clear
          = .ok (none, if gs.graph.directed && !copy then gd else gs))
    ∧ (∀ c gd e, _g_with_data R gs method act radius copy clear = .ok (c, gd) →
        pagerank gd = .error e → e ≠ .powerIterationFailedConvergence →
        get_energy_gradient_centrality pagerank R gs method act radius copy clear
          = .error e) := by
  refine ⟨?_, ?_, ?_⟩
  · intro s after h
    unfold get_energy_gradient_centrality at h
    cases hgd : _g_with_data R gs method act radius copy clear with
    | error e => rw [hgd] at h; cases h
    | ok q =>
      obtain ⟨c, gd⟩ := q
      simp only [hgd, Except.bind, bind] at h
      cases hp : pagerank gd with
      | ok r =>
        simp only [hp] at h
        cases h
        rw [Hpr gd _ hp]
        exact g_with_data_nodes R gs method act radius copy clear c gd hgd
      | error e =>
        cases e <;> simp [hp] at h
  · intro c gd hgd hp
    unfold get_energy_gradient_centrality
    simp only [hgd, Except.bind, bind, hp]
  · intro c gd e hgd hp hne
    unfold get_energy_gradient_centrality
    cases e with
    | powerIterationFailedConvergence => exact absurd rfl hne
    | keyError => simp only [hgd, Except.bind, bind, hp]
    | valueError => simp only [hgd, Except.bind, bind, hp]
    | attributeError => simp only [hgd, Except.bind, bind, hp]
    | typeError => simp only [hgd, Except.bind, bind, hp]
    | otherError => simp only [hgd, Except.bind, bind, hp]

/-- A rank-propagation stub realising the networkx contract: score 1 for
every node of the graph it is given. -/
def pagerankStub : PageRankFn := fun gsx => .ok (gsx.graph.nodes.map (fun n => (n, (1 : ℚ))))

/-- Concrete instance of C7(i): on the two-node path the converging stub
yields a mapping whose keys are exactly the node set. -/
theorem energy_gradient_centrality_keys_witness :
    ([(0, (1 : ℚ)), (1, 1)].map Prod.fst = pathGraph.nodes : Prop) := by
  have Hpr : ∀ gs' s, pagerankStub gs' = .ok s → s.map Prod.fst = gs'.graph.nodes := by
    intro gs' s h
    have h' : Except.ok (ε := PyErr) (gs'.graph.nodes.map (fun n => (n, (1 : ℚ)))) = .ok s := h
    cases h'
    rw [List.map_map]
    have hcomp : (Prod.fst ∘ fun n : Node => (n, (1 : ℚ))) = id := rfl
    rw [hcomp, List.map_id]
  refine (energy_gradient_centrality_keys_and_errors pagerankStub scenarioRegistry
    (freshGS pathGraph) "randic" id 1 true true Hpr).1 [(0, 1), (1, 1)] (freshGS pathGraph) ?_
  norm_num +decide [get_energy_gradient_centrality, _g_with_data, _gradient_decorator,
    decorate_graph, applyNodeDecorators, applyEdgeDecorators, has_edges_decorated,
    writeEdgeAttrs, add_edges_decorator, bindMethod, to_directed_state, copyState,
    clearState, Graph.to_directed, Graph.hasEdge, Graph.edgeKey, dictSet, dictGet,
    get_energy_gradients, _get_energy_method, _gradients_loop, _compute_gradient,
    scenarioRegistry, stubEnergy, pathGraph, freshGS, pagerankStub, Except.bind, bind,
    pure, Except.pure]

/-! ### C10 — late binding of the loop variable in the centrality facade -/

/-- Attribute values left by a node-attribute write loop: under the written
key the last written value for the node wins (falling back to the previous
attribute), all other keys are untouched. -/
theorem lastVal_cons {κ β : Type} [DecidableEq κ] (p : κ × β) (rest : List (κ × β)) (n : κ) :
    lastVal (p :: rest) n = match lastVal rest n with
      | some w => some w
      | none => if p.1 = n then some p.2 else none := rfl

theorem writeNodeAttrs_lookup (name : String) :
    ∀ (l : List (Node × Val)) (gs gs' : GraphState),
      writeNodeAttrs name l gs = .ok gs' →
      (∀ n : Node, dictGet gs'.nodeAttrs (n, name)
          = match lastVal l n with
            | some w => some w
            | none => dictGet gs.nodeAttrs (n, name))
      ∧ (∀ (n : Node) (key : String), key ≠ name →
          dictGet gs'.nodeAttrs (n, key) = dictGet gs.nodeAttrs (n, key)) := by
  intro l
  induction l with
  | nil =>
    intro gs gs' h
    unfold writeNodeAttrs at h
    cases h
    exact ⟨fun n => rfl, fun n key _ => rfl⟩
  | cons p rest ih =>
    intro gs gs' h
    obtain ⟨n0, v⟩ := p
    unfold writeNodeAttrs at h
    split at h
    · obtain ⟨ihA, ihB⟩ := ih _ _ h
      constructor
      · intro n
        rw [ihA n, lastVal_cons]
        cases hl : lastVal rest n with
        | some w => rfl
        | none =>
          by_cases hn : n0 = n
          · subst hn
            simp [dictGet_dictSet_self]
          · have hkey : ((n : Node), name) ≠ ((n0 : Node), name) :=
              fun hk => hn (congrArg Prod.fst hk).symm
            simp [hn, dictGet_dictSet_ne _ _ _ _ hkey]
      · intro n key hkey
        rw [ihB n key hkey]
        show dictGet (dictSet gs.nodeAttrs (n0, name) v) (n, key) = _
        exact dictGet_dictSet_ne _ _ _ _ (by
          intro hk
          exact hkey (congrArg Prod.snd hk))
    · cases h

/-- In the directed case the state handed to rank propagation by the inner
`get_energy_gradient_centrality(…, copy=False)` call (with its default
`clear=True`) keeps the caller's graph structure, bound methods and
`supported_methods`, and has all node attributes cleared. -/
theorem g_with_data_inner_state (R : EnergyRegistry) (gs : GraphState) (lm : String)
    (act : Val → Val) (radius : Nat) (c : Nat) (gd : GraphState)
    (hdir : gs.graph.directed = true)
    (h : _g_with_data R gs lm act radius false true = .ok (c, gd)) :
    gd.graph = gs.graph ∧ gd.boundMethods = gs.boundMethods
    ∧ gd.supported_methods = gs.supported_methods ∧ gd.nodeAttrs = [] := by
  unfold _g_with_data decorate_graph at h
  simp only [hdir, if_true, Bool.false_eq_true, if_false, applyNodeDecorators,
    Except.bind, bind] at h
  cases hE : applyEdgeDecorators [("gradient", _gradient_decorator R lm act radius)]
      (clearState gs) with
  | error e => rw [hE] at h; cases h
  | ok q =>
    obtain ⟨ce, gsB⟩ := q
    simp only [hE] at h
    cases h
    obtain ⟨hg, hn, _, hs, hb, _⟩ :=
      applyEdgeDecorators_components _ _ _ _ (gradient_decorator_pure R lm act radius) hE
    exact ⟨hg, hb, hs, hn⟩

/-- The inner decorated state depends only on the graph structure, bound
methods and `supported_methods` of the state the decorator receives —
everything else is wiped by `clear=True` (or lost by `to_directed`'s fresh
copy). -/
theorem g_with_data_congr (R : EnergyRegistry) (gs₁ gs₂ : GraphState) (lm : String)
    (act : Val → Val) (radius : Nat)
    (h1 : gs₁.graph = gs₂.graph) (h2 : gs₁.boundMethods = gs₂.boundMethods)
    (h3 : gs₁.supported_methods = gs₂.supported_methods) :
    _g_with_data R gs₁ lm act radius false true
      = _g_with_data R gs₂ lm act radius false true := by
  have hbase : clearState (if gs₁.graph.directed then gs₁ else to_directed_state gs₁)
      = clearState (if gs₂.graph.directed then gs₂ else to_directed_state gs₂) := by
    cases hdir : gs₁.graph.directed with
    | true =>
      have hdir₂ : gs₂.graph.directed = true := h1 ▸ hdir
      rw [hdir₂]
      simp only [if_true]
      show GraphState.mk gs₁.graph [] [] [] [] gs₁.supported_methods gs₁.boundMethods
        = GraphState.mk gs₂.graph [] [] [] [] gs₂.supported_methods gs₂.boundMethods
      rw [h1, h2, h3]
    | false =>
      have hdir₂ : gs₂.graph.directed = false := h1 ▸ hdir
      rw [hdir₂]
      simp only [Bool.false_eq_true, if_false]
      show GraphState.mk gs₁.graph.to_directed [] [] [] [] none []
        = GraphState.mk gs₂.graph.to_directed [] [] [] [] none []
      rw [h1]
  unfold _g_with_data decorate_graph
  simp only [Bool.false_eq_true, if_false, if_true]
  rw [hbase]

/-- After a successful run, the centrality decorator's graph object keeps
its structure, bound methods and `supported_methods`; and either it was not
mutated at all (undirected input: the inner call worked on a fresh directed
copy) or its node attributes were wiped by the inner `clear=True`. -/
theorem centrality_decorator_after (pagerank : PageRankFn) (R : EnergyRegistry)
    (lm : Option String) (act : Val → Val) (radius : Nat) (gs₁ : GraphState)
    (k : Nat) (l : List (Node × Val)) (aft : GraphState)
    (h : _centrality_decorator pagerank R lm act radius gs₁ = .ok (k, l, aft)) :
    aft.graph = gs₁.graph ∧ aft.boundMethods = gs₁.boundMethods
    ∧ aft.supported_methods = gs₁.supported_methods
    ∧ (aft = gs₁ ∨ aft.nodeAttrs = []) := by
  cases lm with
  | none => simp only [_centrality_decorator] at h; cases h
  | some lm' =>
    unfold _centrality_decorator get_energy_gradient_centrality at h
    cases hgd : _g_with_data R gs₁ lm' act radius false true with
    | error e => simp only [hgd, Except.bind, bind] at h; cases h
    | ok q =>
      obtain ⟨c, gd⟩ := q
      simp only [hgd, Except.bind, bind, pure, Except.pure] at h
      cases hdir : gs₁.graph.directed with
      | false =>
        have hafter : aft = gs₁ := by
          cases hp : pagerank gd with
          | ok r => simp only [hp, hdir] at h; cases h; rfl
          | error e =>
            cases e with
            | powerIterationFailedConvergence =>
              simp only [hp, hdir] at h; cases h; rfl
            | keyError => simp only [hp] at h; cases h
            | valueError => simp only [hp] at h; cases h
            | attributeError => simp only [hp] at h; cases h
            | typeError => simp only [hp] at h; cases h
            | otherError => simp only [hp] at h; cases h
        subst hafter
        exact ⟨rfl, rfl, rfl, Or.inl rfl⟩
      | true =>
        have hafter : aft = gd := by
          cases hp : pagerank gd with
          | ok r => simp only [hp, hdir] at h; cases h; rfl
          | error e =>
            cases e with
            | powerIterationFailedConvergence =>
              simp only [hp, hdir] at h; cases h; rfl
            | keyError => simp only [hp] at h; cases h
            | valueError => simp only [hp] at h; cases h
            | attributeError => simp only [hp] at h; cases h
            | typeError => simp only [hp] at h; cases h
            | otherError => simp only [hp] at h; cases h
        subst hafter
        obtain ⟨hg, hb, hs, hn⟩ :=
          g_with_data_inner_state R gs₁ lm' act radius c aft hdir hgd
        exact ⟨hg, hb, hs, Or.inr hn⟩

/-- Two states agreeing on graph structure, bound methods and
`supported_methods` make the centrality decorator produce the same count and
mapping. -/
theorem centrality_decorator_congr (pagerank : PageRankFn) (R : EnergyRegistry)
    (lm : Option String) (act : Val → Val) (radius : Nat) (gs₁ gs₂ : GraphState)
    (h1 : gs₁.graph = gs₂.graph) (h2 : gs₁.boundMethods = gs₂.boundMethods)
    (h3 : gs₁.supported_methods = gs₂.supported_methods)
    (k : Nat) (l : List (Node × Val)) (aft : GraphState)
    (h : _centrality_decorator pagerank R lm act radius gs₁ = .ok (k, l, aft)) :
    ∃ aft₂, _centrality_decorator pagerank R lm act radius gs₂ = .ok (k, l, aft₂) := by
  cases lm with
  | none => simp only [_centrality_decorator] at h; cases h
  | some lm' =>
    have hG := g_with_data_congr R gs₁ gs₂ lm' act radius h1 h2 h3
    unfold _centrality_decorator get_energy_gradient_centrality at h ⊢
    cases hgd : _g_with_data R gs₁ lm' act radius false true with
    | error e => simp only [hgd, Except.bind, bind] at h; cases h
    | ok q =>
      obtain ⟨c, gd⟩ := q
      have hgd₂ : _g_with_data R gs₂ lm' act radius false true = .ok (c, gd) := by
        rw [← hG]; exact hgd
      simp only [hgd, Except.bind, bind, pure, Except.pure] at h
      simp only [hgd₂, Except.bind, bind, pure, Except.pure]
      cases hp : pagerank gd with
      | ok r =>
        simp only [hp] at h ⊢
        cases h
        exact ⟨_, rfl⟩
      | error e =>
        cases e with
        | powerIterationFailedConvergence =>
          simp only [hp] at h ⊢
          cases h
          exact ⟨_, rfl⟩
        | keyError => simp only [hp] at h; cases h
        | valueError => simp only [hp] at h; cases h
        | attributeError => simp only [hp] at h; cases h
        | typeError => simp only [hp] at h; cases h
        | otherError => simp only [hp] at h; cases h

/-- Invariant of the centrality decorator loop: every centrality attribute
value reachable in the final state is a value of the one shared decorator
evaluated at (any state agreeing with) the initial state. -/
theorem centrality_loop_values (pagerank : PageRankFn) (R : EnergyRegistry)
    (lm : Option String) (act : Val → Val) (radius : Nat) (gs0 : GraphState) :
    ∀ (ms : List String) (gsCur : GraphState) (c : Nat) (gs' : GraphState),
      applyNodeDecorators (ms.map (fun m =>
        (_get_centrality_name m, _centrality_decorator pagerank R lm act radius))) gsCur
        = .ok (c, gs') →
      gsCur.graph = gs0.graph → gsCur.boundMethods = gs0.boundMethods →
      gsCur.supported_methods = gs0.supported_methods →
      (∀ (m : String) (n : Node) (v : Val),
        dictGet gsCur.nodeAttrs (n, _get_centrality_name m) = some v →
        ∃ k l aft, _centrality_decorator pagerank R lm act radius gs0 = .ok (k, l, aft)
          ∧ lastVal l n = some v) →
      ∀ (m : String) (n : Node) (v : Val),
        dictGet gs'.nodeAttrs (n, _get_centrality_name m) = some v →
        ∃ k l aft, _centrality_decorator pagerank R lm act radius gs0 = .ok (k, l, aft)
          ∧ lastVal l n = some v := by
  intro ms
  induction ms with
  | nil =>
    intro gsCur c gs' h _ _ _ hgood
    simp only [List.map_nil, applyNodeDecorators] at h
    cases h
    exact hgood
  | cons m0 ms' ih =>
    intro gsCur c gs' h htg htb hts hgood
    rw [List.map_cons] at h
    unfold applyNodeDecorators at h
    split at h
    · exact ih gsCur c gs' h htg htb hts hgood
    · cases hfn : _centrality_decorator pagerank R lm act radius gsCur with
      | error e => rw [hfn] at h; cases h
      | ok t =>
        obtain ⟨k, l, aft⟩ := t
        obtain ⟨ag, ab, as', haft⟩ :=
          centrality_decorator_after pagerank R lm act radius gsCur k l aft hfn
        obtain ⟨aft₀, hD0⟩ := centrality_decorator_congr pagerank R lm act radius
          gsCur gs0 htg htb hts k l aft hfn
        have htg' : aft.graph = gs0.graph := ag.trans htg
        have htb' : aft.boundMethods = gs0.boundMethods := ab.trans htb
        have hts' : aft.supported_methods = gs0.supported_methods := as'.trans hts
        have hgood_aft : ∀ (m : String) (n : Node) (v : Val),
            dictGet aft.nodeAttrs (n, _get_centrality_name m) = some v →
            ∃ k l aft', _centrality_decorator pagerank R lm act radius gs0 = .ok (k, l, aft')
              ∧ lastVal l n = some v := by
          rcases haft with rfl | hnil
          · exact hgood
          · intro m n v hv
            rw [hnil] at hv
            cases hv
        simp only [hfn] at h
        split at h
        · cases hrest : applyNodeDecorators (ms'.map (fun m =>
              (_get_centrality_name m, _centrality_decorator pagerank R lm act radius))) aft with
          | error e => simp only [hrest] at h; cases h
          | ok q =>
            obtain ⟨c', gs''⟩ := q
            simp only [hrest] at h
            cases h
            exact ih aft c' _ hrest htg' htb' hts' hgood_aft
        · cases hw : writeNodeAttrs (_get_centrality_name m0) l aft with
          | error e => simp only [hw] at h; cases h
          | ok gsW =>
            simp only [hw] at h
            obtain ⟨lookA, lookB⟩ := writeNodeAttrs_lookup (_get_centrality_name m0) l aft gsW hw
            obtain ⟨wg, we, wn, wed, ws, wb⟩ :=
              writeNodeAttrs_components (_get_centrality_name m0) l aft gsW hw
            have hgood_W : ∀ (m : String) (n : Node) (v : Val),
                dictGet gsW.nodeAttrs (n, _get_centrality_name m) = some v →
                ∃ k l aft', _centrality_decorator pagerank R lm act radius gs0
                    = .ok (k, l, aft') ∧ lastVal l n = some v := by
              intro m1 n v hv
              by_cases hkey : _get_centrality_name m1 = _get_centrality_name m0
              · rw [hkey] at hv
                rw [lookA n] at hv
                cases hl2 : lastVal l n with
                | some w =>
                  rw [hl2] at hv
                  cases hv
                  exact ⟨k, l, aft₀, hD0, hl2⟩
                | none =>
                  rw [hl2] at hv
                  exact hgood_aft m0 n v hv
              · rw [lookB n _ hkey] at hv
                exact hgood_aft m1 n v hv
            have hgood_A : ∀ (m : String) (n : Node) (v : Val),
                dictGet (add_nodes_decorator gsW (_get_centrality_name m0)).nodeAttrs
                    (n, _get_centrality_name m) = some v →
                ∃ k l aft', _centrality_decorator pagerank R lm act radius gs0
                    = .ok (k, l, aft') ∧ lastVal l n = some v := hgood_W
            cases hrest : applyNodeDecorators (ms'.map (fun m =>
                (_get_centrality_name m, _centrality_decorator pagerank R lm act radius)))
                (add_nodes_decorator gsW (_get_centrality_name m0)) with
            | error e => simp only [hrest] at h; cases h
            | ok q =>
              obtain ⟨c', gs''⟩ := q
              simp only [hrest] at h
              cases h
              exact ih _ c' _ hrest (wg.trans htg') (wb.trans htb') (ws.trans hts') hgood_A

/-- C10: in `get_graph_with_energy_gradient_centrality`, every centrality
decorator closes over the shared loop variable `method` and is invoked only
after the loop has completed, so every node attribute stored under any key
`"<m>_gradient_centrality"` holds a value computed by the decorator for the
LAST method of the list (`methods.getLast?`), not for `m`. -/
theorem centrality_attrs_use_last_method (pagerank : PageRankFn) (R : EnergyRegistry)
    (gs : GraphState) (methods : List String) (act : Val → Val) (radius : Nat)
    (c : Nat) (gsF : GraphState)
    (hfresh : ∀ (m : String) (n : Node),
      dictGet gs.nodeAttrs (n, _get_centrality_name m) = none)
    (hcall : get_graph_with_energy_gradient_centrality pagerank R gs methods act radius
      false false = .ok (c, gsF)) :
    ∀ (m : String) (n : Node) (v : Val),
      dictGet gsF.nodeAttrs (n, _get_centrality_name m) = some v →
      ∃ k l aft, _centrality_decorator pagerank R methods.getLast? act radius gs
          = .ok (k, l, aft)
        ∧ lastVal l n = some v := by
  unfold get_graph_with_energy_gradient_centrality decorate_graph at hcall
  simp only [Bool.false_eq_true, if_false, Except.bind, bind] at hcall
  cases hN : applyNodeDecorators (methods.map (fun m =>
      (_get_centrality_name m, _centrality_decorator pagerank R methods.getLast? act radius)))
      gs with
  | error e => rw [hN] at hcall; cases hcall
  | ok p =>
    obtain ⟨cn, gsA⟩ := p
    simp only [hN, applyEdgeDecorators] at hcall
    cases hcall
    exact centrality_loop_values pagerank R methods.getLast? act radius gs methods gs cn
      gsA hN rfl rfl rfl
      (fun m n v hv => by rw [hfresh m n] at hv; cases hv)

/-- The state produced by decorating the fresh two-node path with
centralities for `["laplacian", "randic"]` via the converging stub. -/
def c10State : GraphState :=
  { graph := pathGraph,
    nodeAttrs := [((0, "laplacian_gradient_centrality"), 1),
                  ((1, "laplacian_gradient_centrality"), 1),
                  ((0, "randic_gradient_centrality"), 1),
                  ((1, "randic_gradient_centrality"), 1)],
    edgeAttrs := [],
    nodes_decorators := ["laplacian_gradient_centrality", "randic_gradient_centrality"],
    edges_decorators := [],
    supported_methods := none,
    boundMethods := [] }

/-- Concrete instance of C10: with two methods, the value stored under the
`laplacian` centrality key comes from the decorator evaluated with
`methods.getLast? = some "randic"`. -/
theorem centrality_attrs_use_last_method_witness :
    ∃ k l aft, _centrality_decorator pagerankStub scenarioRegistry
        (["laplacian", "randic"].getLast?) id 1 (freshGS pathGraph) = .ok (k, l, aft)
      ∧ lastVal l 0 = some 1 := by
  refine centrality_attrs_use_last_method pagerankStub scenarioRegistry (freshGS pathGraph)
    ["laplacian", "randic"] id 1 2 c10State (fun m n => rfl) ?_ "laplacian" 0 1 ?_
  · norm_num +decide [get_graph_with_energy_gradient_centrality, _centrality_decorator,
      get_energy_gradient_centrality, _g_with_data, _gradient_decorator, decorate_graph,
      applyNodeDecorators, applyEdgeDecorators, has_nodes_decorated, has_edges_decorated,
      writeNodeAttrs, writeEdgeAttrs, add_nodes_decorator, add_edges_decorator, bindMethod,
      to_directed_state, copyState, clearState, Graph.to_directed, Graph.hasEdge,
      Graph.edgeKey, dictSet, dictGet, get_energy_gradients, _get_energy_method,
      _gradients_loop, _compute_gradient, _get_centrality_name, scenarioRegistry,
      stubEnergy, pathGraph, freshGS, pagerankStub, c10State, Except.bind, bind, pure,
      Except.pure, List.getLast?]
  · decide

end NetworkEnergyGradient
